import Mathlib

/-!
# MemoryLeakBusterCustom: the allocation registry, the interceptors and the symbol resolver

A shallow embedding of `src/mlbc/MemoryLeakBusterCustom.cpp`.

* Pointers (`void*`) are natural numbers, the null pointer is `0`.
* `size_t` values are natural numbers; the two `unsigned __int64` counters
  are natural numbers reduced modulo `2 ^ 64` at every update.
* `std::map<void*, AllocInfo>` is a list of key/value pairs kept in strictly
  ascending key order, `std::vector<AllocInfo>` is a list.
* A C string is a `String`: the characters in front of the terminating NUL,
  one `Char` per C `char`.
* Undefined behaviour of the C++ code (dereferencing the end iterator of the
  map, writing past the end of a `char` array) is the result `none`.
-/

namespace MLBC

/-! ## Constants (lines 19-21) -/

/-- The constant `MinimumAlignment`. -/
def MinimumAlignment : Nat := 16

/-- The constant `MaxCallstackDepth`. -/
def MaxCallstackDepth : Nat := 32

/-- The constant `MaxStringBuffer`. -/
def MaxStringBuffer : Nat := 512

/-- Number of values of an `unsigned __int64`. -/
def U64 : Nat := 2 ^ 64

/-! ## The record type (lines 251-262) -/

/-- The struct `AllocInfo`; `stack` holds the `MaxCallstackDepth` slots of
the array. -/
structure AllocInfo where
  location : Nat
  size : Nat
  stack : List Nat
  depth : Nat
  customInfo : Bool
  blockUsage : Int
  filename : String
  lineNumber : Int
deriving DecidableEq, Repr

/-- The value `AllocInfo cs = {}`: every member zero. -/
def AllocInfo.zero : AllocInfo where
  location := 0
  size := 0
  stack := List.replicate MaxCallstackDepth 0
  depth := 0
  customInfo := false
  blockUsage := 0
  filename := ""
  lineNumber := 0

/-- The effect of `GetCallstack(cs.stack, _countof(cs.stack), 3)` on the
zeroed array `cs.stack`: the stack walk delivers the return addresses
`frames` (the three innermost already skipped), of which at most
`MaxCallstackDepth` are stored; the other slots stay zero. -/
def GetCallstack (frames : List Nat) : List Nat × Nat :=
  (frames.take MaxCallstackDepth ++
      List.replicate (MaxCallstackDepth - frames.length) 0,
    min frames.length MaxCallstackDepth)

/-! ## The live table: `std::map<void*, AllocInfo>` (line 264) -/

/-- The type `DataTable`: key/value pairs in ascending key order. -/
abbrev DataTable := List (Nat × AllocInfo)

namespace DataTable

/-- The call `m.find(p)`: `none` stands for the end iterator. -/
def find : DataTable → Nat → Option AllocInfo
  | [], _ => none
  | (k, v) :: t, p => if k = p then some v else find t p

/-- The assignment `m[p] = cs`: insert at the key's place in the order, or
overwrite the value stored under the key. -/
def assign : DataTable → Nat → AllocInfo → DataTable
  | [], p, cs => [(p, cs)]
  | (k, v) :: t, p, cs =>
    if p < k then (p, cs) :: (k, v) :: t
    else if p = k then (p, cs) :: t
    else (k, v) :: assign t p cs

/-- The call `m.erase(p)`: remove the entry stored under the key, if any. -/
def erase : DataTable → Nat → DataTable
  | [], _ => []
  | (k, v) :: t, p => if k = p then t else (k, v) :: erase t p

/-- The keys of the table, in iteration order. -/
def keys (t : DataTable) : List Nat := t.map Prod.fst

/-- Sum of `size` over the entries of the table. -/
def sizeSum (t : DataTable) : Nat := (t.map (fun e => e.2.size)).sum

/-- Well-formedness of a `std::map`: keys strictly ascending. -/
def Ordered (t : DataTable) : Prop := t.keys.Pairwise (fun a b => a < b)

end DataTable

/-! ## The registry (lines 244-398) -/

/-- The data members of the class `MemoryLeakBusterCustom` (the mutex is
left out: a single thread runs the operations below). -/
structure MemoryLeakBusterCustom where
  allAllocSize : Nat
  allMemoryleakSize : Nat
  allocDataList : List AllocInfo
  m_leakinfo : DataTable
  m_enabled : Bool
deriving DecidableEq, Repr

namespace MemoryLeakBusterCustom

/-- The constructor (lines 267-273). -/
def init : MemoryLeakBusterCustom where
  allAllocSize := 0
  allMemoryleakSize := 0
  allocDataList := []
  m_leakinfo := []
  m_enabled := true

/-- The method `enableLeakCheck` (line 281). -/
def enableLeakCheck (g : MemoryLeakBusterCustom) (v : Bool) : MemoryLeakBusterCustom :=
  { g with m_enabled := v }

/-- The record `cs` built by `addAllocationInfo` (lines 287-291). -/
def plainRecord (p size : Nat) (frames : List Nat) : AllocInfo :=
  { AllocInfo.zero with
    customInfo := false
    location := p
    size := size
    stack := (GetCallstack frames).1
    depth := (GetCallstack frames).2 }

/-- The method `addAllocationInfo` (lines 283-301). -/
def addAllocationInfo (g : MemoryLeakBusterCustom) (p size : Nat) (frames : List Nat) :
    MemoryLeakBusterCustom :=
  if !g.m_enabled then g
  else
    let cs := plainRecord p size frames
    { g with
      m_leakinfo := g.m_leakinfo.assign p cs
      allAllocSize := (g.allAllocSize + size) % U64
      allMemoryleakSize := (g.allMemoryleakSize + size) % U64
      allocDataList := g.allocDataList ++ [cs] }

/-- The record `cs` built by `addCustomAllocationInfo` (lines 307-314). -/
def customRecord (p size : Nat) (blockUsage : Int) (filename : String) (line : Int)
    (frames : List Nat) : AllocInfo :=
  { AllocInfo.zero with
    customInfo := true
    location := p
    size := size
    blockUsage := blockUsage
    filename := filename
    lineNumber := line
    stack := (GetCallstack frames).1
    depth := (GetCallstack frames).2 }

/-- The method `addCustomAllocationInfo` (lines 303-324).
`sprintf(cs.filename, "%s", filename)` writes the characters of `filename`
and a terminating NUL into the array of `MaxStringBuffer` chars; a longer
text runs past the array, which is undefined (`none`). -/
def addCustomAllocationInfo (g : MemoryLeakBusterCustom) (p size : Nat) (blockUsage : Int)
    (filename : String) (line : Int) (frames : List Nat) : Option MemoryLeakBusterCustom :=
  if !g.m_enabled then some g
  else if MaxStringBuffer ≤ filename.length then none
  else
    let cs := customRecord p size blockUsage filename line frames
    some { g with
      m_leakinfo := g.m_leakinfo.assign p cs
      allAllocSize := (g.allAllocSize + size) % U64
      allMemoryleakSize := (g.allMemoryleakSize + size) % U64
      allocDataList := g.allocDataList ++ [cs] }

/-- The method `eraseAllocationInfo` (lines 326-334). `itr->second.size`
dereferences the iterator returned by `find` without comparing it with
`end()`; dereferencing `end()` is undefined (`none`). The subtraction is
that of `unsigned __int64`. -/
def eraseAllocationInfo (g : MemoryLeakBusterCustom) (p : Nat) : Option MemoryLeakBusterCustom :=
  match g.m_leakinfo.find p with
  | none => none
  | some info =>
    some { g with
      allMemoryleakSize := (g.allMemoryleakSize + U64 - info.size % U64) % U64
      m_leakinfo := g.m_leakinfo.erase p }

end MemoryLeakBusterCustom

open MemoryLeakBusterCustom

/-! ## The replaced allocation entry points (lines 403-446)

The registry `g` is the global `g_memory_leak_buster`. `raw` is the pointer
that `_aligned_malloc(size, MinimumAlignment)` returns, `0` when the
allocator fails. Each allocation entry point yields the registry after the
call and the pointer handed to the caller. -/

/-- The function `operator new(size_t)` (lines 408-413). -/
def operatorNew (g : MemoryLeakBusterCustom) (raw size : Nat) (frames : List Nat) :
    MemoryLeakBusterCustom × Nat :=
  (addAllocationInfo g raw size frames, raw)

/-- The function `operator new[](size_t)` (lines 415-420). -/
def operatorNewArray (g : MemoryLeakBusterCustom) (raw size : Nat) (frames : List Nat) :
    MemoryLeakBusterCustom × Nat :=
  (addAllocationInfo g raw size frames, raw)

/-- The function `operator new(size_t, int, char const*, int)` (lines 422-427). -/
def operatorNewSite (g : MemoryLeakBusterCustom) (raw size : Nat) (blockUse : Int)
    (fileName : String) (lineNumber : Int) (frames : List Nat) :
    Option (MemoryLeakBusterCustom × Nat) :=
  match addCustomAllocationInfo g raw size blockUse fileName lineNumber frames with
  | none => none
  | some g1 => some (g1, raw)

/-- The function `operator new[](size_t, int, char const*, int)` (lines 429-434). -/
def operatorNewArraySite (g : MemoryLeakBusterCustom) (raw size : Nat) (blockUse : Int)
    (fileName : String) (lineNumber : Int) (frames : List Nat) :
    Option (MemoryLeakBusterCustom × Nat) :=
  match addCustomAllocationInfo g raw size blockUse fileName lineNumber frames with
  | none => none
  | some g1 => some (g1, raw)

/-- The function `operator delete(void*)` (lines 436-440); the block itself
goes back to the raw allocator. -/
def operatorDelete (g : MemoryLeakBusterCustom) (p : Nat) : Option MemoryLeakBusterCustom :=
  eraseAllocationInfo g p

/-- The function `operator delete[](void*)` (lines 442-446). -/
def operatorDeleteArray (g : MemoryLeakBusterCustom) (p : Nat) : Option MemoryLeakBusterCustom :=
  eraseAllocationInfo g p

/-- Going from `g` to `g1`, the bookkeeping for the record `cs` was done:
`cs` is in the live table under its address and at the end of the history
log, and both counters grew by its size. -/
def Booked (g g1 : MemoryLeakBusterCustom) (cs : AllocInfo) : Prop :=
  g1.m_leakinfo.find cs.location = some cs ∧
    g1.allocDataList = g.allocDataList ++ [cs] ∧
    g1.allAllocSize = (g.allAllocSize + cs.size) % U64 ∧
    g1.allMemoryleakSize = (g.allMemoryleakSize + cs.size) % U64

/-! ## The symbol resolver (lines 108-144)

The 64-bit build (`_WIN64`): pointers and `size_t` have 64 bits. The three
lookups `SymGetModuleInfo`, `SymGetSymFromAddr` and `SymGetLineFromAddr`
belong to the platform; what each of them stores on success (`some`), or its
failure (`none`), is given to the resolver. -/

/-- The constant `MAX_PATH` of `windows.h`. -/
def MAX_PATH : Nat := 260

/-- The members of `IMAGEHLP_MODULE` that are read; `ModuleName` is an
array of 32 chars. -/
structure IMAGEHLP_MODULE where
  ModuleName : String
  BaseOfImage : Nat
  moduleNameFits : ModuleName.length < 32

/-- The members of `IMAGEHLP_SYMBOL` that are read; the lookup stores at
most `MaxNameLength = MAX_PATH` characters of the name. -/
structure IMAGEHLP_SYMBOL where
  Name : String
  Address : Nat
  nameFits : Name.length ≤ MAX_PATH

/-- The members of `IMAGEHLP_LINE` that are read; `FileName` points to a
string of the platform, of any length, `LineNumber` is a `DWORD`. -/
structure IMAGEHLP_LINE where
  FileName : String
  LineNumber : Nat

/-- One hexadecimal digit. -/
def hexDigit (upper : Bool) (d : Nat) : Char :=
  if d < 10 then Char.ofNat (48 + d) else Char.ofNat ((if upper then 55 else 87) + d)

/-- The `k` low hexadecimal digits of `n`, most significant first. -/
def hexFixed (upper : Bool) : Nat → Nat → List Char
  | 0, _ => []
  | k + 1, n => hexFixed upper k (n / 16) ++ [hexDigit upper (n % 16)]

/-- The hexadecimal digits of `n` without leading zeros, at most `k`. -/
def hexShort (upper : Bool) : Nat → Nat → List Char
  | 0, _ => []
  | k + 1, n =>
    if n < 16 then [hexDigit upper n]
    else hexShort upper k (n / 16) ++ [hexDigit upper (n % 16)]

/-- The decimal digits of `n` without leading zeros, at most `k`. -/
def decShort : Nat → Nat → List Char
  | 0, _ => []
  | k + 1, n =>
    if n < 10 then [Char.ofNat (48 + n)]
    else decShort k (n / 10) ++ [Char.ofNat (48 + n % 10)]

/-- The conversion `%p` of a pointer: 16 hexadecimal digits. -/
def fmtPointer (a : Nat) : String := String.mk (hexFixed true 16 (a % 2 ^ 64))

/-- The conversion `%x`, which prints an `unsigned int`: the low 32 bits
of the argument. -/
def fmtHex (n : Nat) : String := String.mk (hexShort false 8 (n % 2 ^ 32))

/-- The conversion `%d`, which prints an `int`, applied to a `DWORD`. -/
def fmtInt (n : Nat) : String :=
  if n % 2 ^ 32 < 2 ^ 31 then String.mk (decShort 10 (n % 2 ^ 32))
  else String.mk ('-' :: decShort 10 (2 ^ 32 - n % 2 ^ 32))

/-- The difference `(size_t)a - (size_t)b`. -/
def sizeSub (a b : Nat) : Nat := (a % 2 ^ 64 + 2 ^ 64 - b % 2 ^ 64) % 2 ^ 64

/-- The function `istsprintf` on an array of `n` chars, followed by reading
the array as a C string: `_vsnprintf` stores the formatted `text` and, when
the text is shorter than `n`, a terminating NUL. Without the NUL the read
runs past the array, which is undefined (`none`). -/
def istsprintf (n : Nat) (text : String) : Option String :=
  if text.length < n then some text else none

/-- The function `AddressToSymbolName` (lines 108-144). -/
def AddressToSymbolName (address : Nat) (imageModule : Option IMAGEHLP_MODULE)
    (imageSymbol : Option IMAGEHLP_SYMBOL) (line : Option IMAGEHLP_LINE) : Option String :=
  match imageModule with
  | none => istsprintf 1024 ("[0x" ++ fmtPointer address ++ "]\n")
  | some m =>
    match imageSymbol with
    | none =>
      istsprintf 1024 (m.ModuleName ++ " + 0x" ++ fmtHex (sizeSub address m.BaseOfImage) ++
        " [0x" ++ fmtPointer address ++ "]\n")
    | some s =>
      match line with
      | none =>
        istsprintf 1024 (m.ModuleName ++ "!" ++ s.Name ++ " + 0x" ++
          fmtHex (sizeSub address s.Address) ++ " [0x" ++ fmtPointer address ++ "]\n")
      | some l =>
        istsprintf 1024 (l.FileName ++ "(" ++ fmtInt l.LineNumber ++ "): " ++
          m.ModuleName ++ "!" ++ s.Name ++ " + 0x" ++
          fmtHex (sizeSub address s.Address) ++ " [0x" ++ fmtPointer address ++ "]\n")

/-- Tier (d): the raw address alone. -/
def addressText (address : Nat) : String := "[0x" ++ fmtPointer address ++ "]\n"

/-- Tier (c): module + offset, followed by the raw address. -/
def moduleText (m : IMAGEHLP_MODULE) (address : Nat) : String :=
  m.ModuleName ++ " + 0x" ++ fmtHex (sizeSub address m.BaseOfImage) ++ " " ++
    addressText address

/-- Tier (b): module!function + offset, followed by the raw address. -/
def symbolText (m : IMAGEHLP_MODULE) (s : IMAGEHLP_SYMBOL) (address : Nat) : String :=
  m.ModuleName ++ "!" ++ s.Name ++ " + 0x" ++ fmtHex (sizeSub address s.Address) ++ " " ++
    addressText address

/-- Tier (a): file(line), followed by the text of tier (b). -/
def lineText (m : IMAGEHLP_MODULE) (s : IMAGEHLP_SYMBOL) (l : IMAGEHLP_LINE)
    (address : Nat) : String :=
  l.FileName ++ "(" ++ fmtInt l.LineNumber ++ "): " ++ symbolText m s address

/-! ### Reading the printed numbers back

The functions below do not come from the source: they read a printed number
back, to say what the conversions `%p`, `%x` and `%d` print. -/

/-- The character is one of `0`-`9`, `A`-`F`. -/
def isUpperHex (c : Char) : Bool := c.isDigit || (65 ≤ c.toNat && c.toNat ≤ 70)

/-- The character is one of `0`-`9`, `a`-`f`. -/
def isLowerHex (c : Char) : Bool := c.isDigit || (97 ≤ c.toNat && c.toNat ≤ 102)

/-- The value of one hexadecimal digit, upper or lower case. -/
def hexCharValue (c : Char) : Nat :=
  if c.isDigit then c.toNat - 48
  else if 65 ≤ c.toNat ∧ c.toNat ≤ 70 then c.toNat - 55
  else if 97 ≤ c.toNat ∧ c.toNat ≤ 102 then c.toNat - 87
  else 0

/-- The number that a string of hexadecimal digits denotes. -/
def hexValue (l : List Char) : Nat := l.foldl (fun acc c => acc * 16 + hexCharValue c) 0

/-- The number that a string of decimal digits denotes. -/
def decValue (l : List Char) : Nat := l.foldl (fun acc c => acc * 10 + (c.toNat - 48)) 0

/-- A module `app` loaded at `0x7FF6A1B20000`. -/
def exampleModule : IMAGEHLP_MODULE where
  ModuleName := "app"
  BaseOfImage := 0x7FF6A1B20000
  moduleNameFits := by decide

/-- A function `main` at `0x7FF6A1B2A9A9`. -/
def exampleSymbol : IMAGEHLP_SYMBOL where
  Name := "main"
  Address := 0x7FF6A1B2A9A9
  nameFits := by decide

/-- Line 42 of `main.cpp`. -/
def exampleLine : IMAGEHLP_LINE where
  FileName := "main.cpp"
  LineNumber := 42

/-- A file name of 1024 characters. -/
def longPath : String := String.mk (List.replicate 1024 'a')

/-! ## Several threads

The method bodies as sequences of steps that a thread runs one at a time,
with the steps of other threads in between. `x += size` on the plain 64-bit
members `allAllocSize` and `allMemoryleakSize` is a read of the member
followed by a write of the sum. -/

/-- One step of a method body. -/
inductive Instr where
  /-- The statement `if(!m_enabled) { return; }`. -/
  | gate
  /-- The statement `sprintf(cs.filename, "%s", filename)`. -/
  | copyName (filename : String)
  /-- The constructor of `Mutex::ScopedLock`. -/
  | lock
  /-- The destructor of `Mutex::ScopedLock`. -/
  | unlock
  /-- The statement `m_leakinfo[p] = cs`. -/
  | assign (p : Nat) (cs : AllocInfo)
  /-- The read of `allAllocSize` in `allAllocSize += size`. -/
  | loadAlloc
  /-- The write of `allAllocSize` in `allAllocSize += size`. -/
  | storeAlloc (size : Nat)
  /-- The read of `allMemoryleakSize` in `allMemoryleakSize += size`. -/
  | loadLeak
  /-- The write of `allMemoryleakSize` in `allMemoryleakSize += size`. -/
  | storeLeak (size : Nat)
  /-- The statement `allocDataList.push_back(cs)`. -/
  | pushBack (cs : AllocInfo)
  /-- Lines 330-333: `find`, the subtraction from `allMemoryleakSize`, `erase`. -/
  | findSubErase (p : Nat)
  /-- The reads of both counters for the header of the report (lines 361-362). -/
  | readCounters
  /-- The loop over `allocDataList` of the report (lines 366-370). -/
  | readHistory
  /-- The loop over `m_leakinfo` of the report (lines 375-381). -/
  | readTable
deriving DecidableEq, Repr

/-- The step reads or writes the live table, the history log or a counter. -/
def Instr.shared : Instr → Bool
  | .gate => false
  | .copyName _ => false
  | .lock => false
  | .unlock => false
  | _ => true

/-- The steps of `addAllocationInfo` (lines 283-301). -/
def addAllocationInfoCode (p size : Nat) (frames : List Nat) : List Instr :=
  [.gate, .lock, .assign p (plainRecord p size frames), .unlock,
    .loadAlloc, .storeAlloc size, .loadLeak, .storeLeak size,
    .pushBack (plainRecord p size frames)]

/-- The steps of `addCustomAllocationInfo` (lines 303-324). -/
def addCustomAllocationInfoCode (p size : Nat) (blockUsage : Int) (filename : String)
    (line : Int) (frames : List Nat) : List Instr :=
  [.gate, .copyName filename, .lock,
    .assign p (customRecord p size blockUsage filename line frames), .unlock,
    .loadAlloc, .storeAlloc size, .loadLeak, .storeLeak size,
    .pushBack (customRecord p size blockUsage filename line frames)]

/-- The steps of `eraseAllocationInfo` (lines 326-334). -/
def eraseAllocationInfoCode (p : Nat) : List Instr :=
  [.lock, .findSubErase p, .unlock]

/-- The steps of `printLeakInfo` (lines 336-382) that read the registry. -/
def printLeakInfoCode : List Instr :=
  [.readCounters, .readHistory, .lock, .readTable, .unlock]

/-- Every step of the code that reads or writes the live table, the history
log or a counter comes between a `lock` and the next `unlock`; `held` tells
whether the thread holds the mutex at the start. -/
def lockedAccess : Bool → List Instr → Bool
  | _, [] => true
  | _, .lock :: rest => lockedAccess true rest
  | _, .unlock :: rest => lockedAccess false rest
  | held, i :: rest => (!i.shared || held) && lockedAccess held rest

/-- A thread inside a call: the steps still to run and the value it last
read from a counter. -/
structure Thread where
  code : List Instr
  reg : Nat
deriving DecidableEq, Repr

/-- The registry, the thread that holds the mutex, and the threads. -/
structure Machine where
  g : MemoryLeakBusterCustom
  owner : Option Nat
  threads : List Thread
deriving DecidableEq, Repr

/-- Thread `tid` runs the step `i`: the registry, the holder of the mutex
and the value read, and whether the thread goes on with the method body
(`false`: it returns). `none`: the step is undefined, or the thread has to
wait for the mutex. -/
def stepInstr (tid : Nat) (i : Instr) (g : MemoryLeakBusterCustom) (owner : Option Nat)
    (reg : Nat) : Option (MemoryLeakBusterCustom × Option Nat × Nat × Bool) :=
  match i with
  | .gate => some (g, owner, reg, g.m_enabled)
  | .copyName filename =>
    if MaxStringBuffer ≤ filename.length then none else some (g, owner, reg, true)
  | .lock => if owner = none then some (g, some tid, reg, true) else none
  | .unlock => if owner = some tid then some (g, none, reg, true) else none
  | .assign p cs => some ({ g with m_leakinfo := g.m_leakinfo.assign p cs }, owner, reg, true)
  | .loadAlloc => some (g, owner, g.allAllocSize, true)
  | .storeAlloc size => some ({ g with allAllocSize := (reg + size) % U64 }, owner, reg, true)
  | .loadLeak => some (g, owner, g.allMemoryleakSize, true)
  | .storeLeak size =>
    some ({ g with allMemoryleakSize := (reg + size) % U64 }, owner, reg, true)
  | .pushBack cs => some ({ g with allocDataList := g.allocDataList ++ [cs] }, owner, reg, true)
  | .findSubErase p =>
    match eraseAllocationInfo g p with
    | none => none
    | some g1 => some (g1, owner, reg, true)
  | .readCounters => some (g, owner, reg, true)
  | .readHistory => some (g, owner, reg, true)
  | .readTable => some (g, owner, reg, true)

/-- Thread `tid` runs its next step. -/
def exec (m : Machine) (tid : Nat) : Option Machine :=
  match m.threads.get? tid with
  | none => none
  | some t =>
    match t.code with
    | [] => none
    | i :: rest =>
      match stepInstr tid i m.g m.owner t.reg with
      | none => none
      | some (g1, owner1, reg1, goOn) =>
        some { g := g1, owner := owner1,
               threads := m.threads.set tid { code := if goOn then rest else [], reg := reg1 } }

/-- The threads run their steps in the order given by `schedule`. -/
def execAll (m : Machine) : List Nat → Option Machine
  | [] => some m
  | tid :: rest =>
    match exec m tid with
    | none => none
    | some m1 => execAll m1 rest

/-- One thread runs the steps of `code` with no other thread in between. -/
def runAlone (tid : Nat) :
    List Instr → MemoryLeakBusterCustom → Option Nat → Nat →
      Option (MemoryLeakBusterCustom × Option Nat)
  | [], g, owner, _ => some (g, owner)
  | i :: rest, g, owner, reg =>
    match stepInstr tid i g owner reg with
    | none => none
    | some (g1, owner1, reg1, goOn) =>
      if goOn then runAlone tid rest g1 owner1 reg1 else some (g1, owner1)

/-- Two threads on the initial registry, with the mutex free: thread 0 is in
`addAllocationInfo(4096, 16)`, thread 1 in `addAllocationInfo(8192, 32)`. -/
def twoRecorders : Machine where
  g := init
  owner := none
  threads := [{ code := addAllocationInfoCode 4096 16 [], reg := 0 },
    { code := addAllocationInfoCode 8192 32 [], reg := 0 }]

/-- Thread 0 runs up to and including its read of `allAllocSize`, thread 1
runs its whole call, thread 0 runs the rest of its call. -/
def lostUpdateSchedule : List Nat :=
  [0, 0, 0, 0, 0, 1, 1, 1, 1, 1, 1, 1, 1, 1, 0, 0, 0, 0]

/-! ## Sequences of calls on the registry -/

/-- One call of a public method of the registry, with its arguments (and,
for the two recording methods, the return addresses the stack walk finds). -/
inductive Op where
  /-- A call of `addAllocationInfo`. -/
  | record (p size : Nat) (frames : List Nat)
  /-- A call of `addCustomAllocationInfo`. -/
  | recordWithSite (p size : Nat) (blockUsage : Int) (filename : String) (line : Int)
      (frames : List Nat)
  /-- A call of `eraseAllocationInfo`. -/
  | release (p : Nat)
  /-- A call of `enableLeakCheck`. -/
  | enableLeakCheck (v : Bool)
deriving DecidableEq, Repr

/-- Run one call. -/
def step (g : MemoryLeakBusterCustom) : Op → Option MemoryLeakBusterCustom
  | .record p size frames => some (addAllocationInfo g p size frames)
  | .recordWithSite p size blockUsage filename line frames =>
    addCustomAllocationInfo g p size blockUsage filename line frames
  | .release p => eraseAllocationInfo g p
  | .enableLeakCheck v => some (enableLeakCheck g v)

/-- Run a sequence of calls, one after the other, on one thread. -/
def run (g : MemoryLeakBusterCustom) : List Op → Option MemoryLeakBusterCustom
  | [] => some g
  | o :: rest =>
    match step g o with
    | none => none
    | some g1 => run g1 rest

namespace Op

/-- The address a recording or releasing call is about. -/
def target : Op → Option Nat
  | .record p _ _ => some p
  | .recordWithSite p _ _ _ _ _ => some p
  | .release p => some p
  | .enableLeakCheck _ => none

/-- The size a recording call passes. -/
def recordedSize : Op → Option Nat
  | .record _ size _ => some size
  | .recordWithSite _ size _ _ _ _ => some size
  | .release _ => none
  | .enableLeakCheck _ => none

/-- The call is `record`, `recordWithSite` or `release`. -/
def isCall : Op → Bool
  | .enableLeakCheck _ => false
  | _ => true

/-- The file name of an annotated call fits the `filename` array of the
record together with its terminating NUL. -/
def nameFits : Op → Bool
  | .recordWithSite _ _ _ filename _ _ => decide (filename.length < MaxStringBuffer)
  | _ => true

/-- A release is about an address that is a key of the live table. -/
def releaseLive (g : MemoryLeakBusterCustom) : Op → Bool
  | .release p => (g.m_leakinfo.find p).isSome
  | _ => true

/-- A recording call is about an address that is not a key of the live
table, a release is about one that is. -/
def paired (g : MemoryLeakBusterCustom) : Op → Bool
  | .record p _ _ => (g.m_leakinfo.find p).isNone
  | .recordWithSite p _ _ _ _ _ => (g.m_leakinfo.find p).isNone
  | .release p => (g.m_leakinfo.find p).isSome
  | .enableLeakCheck _ => true

end Op

/-- Every call of the sequence satisfies `guard` in the registry state it is
made in. -/
def holdsAlong (guard : MemoryLeakBusterCustom → Op → Bool) :
    MemoryLeakBusterCustom → List Op → Bool
  | _, [] => true
  | g, o :: rest =>
    guard g o &&
      match step g o with
      | none => true
      | some g1 => holdsAlong guard g1 rest

/-- The sequence holds `record`, `recordWithSite` and `release` calls only. -/
def callsOnly (ops : List Op) : Bool := ops.all Op.isCall

/-- Every annotated call of the sequence has a file name that fits. -/
def namesFit (ops : List Op) : Bool := ops.all Op.nameFits

/-! ## What a sequence of calls says

The notions below are read off the sequence of calls alone; the registry is
not run. The properties compare them with the state the registry reaches. -/

/-- Sum of the sizes passed to the recording calls of the sequence. -/
def recordedBytes (ops : List Op) : Nat := (ops.filterMap Op.recordedSize).sum

/-- The last call of the sequence that is about the address `a`. -/
def lastTouch (ops : List Op) (a : Nat) : Option Op :=
  ops.reverse.find? (fun o => decide (o.target = some a))

/-- The size of the latest recording of `a`, when no release of `a` follows
it in the sequence; `none` when `a` was never recorded or its latest
recording has a later release. -/
def liveSize (ops : List Op) (a : Nat) : Option Nat :=
  (lastTouch ops a).bind Op.recordedSize

/-- The addresses the sequence is about, each once. -/
def touched (ops : List Op) : List Nat := (ops.filterMap Op.target).dedup

/-- Sum, over the addresses whose latest recording has no later release, of
the size of that recording. -/
def unreleasedBytes (ops : List Op) : Nat := ((touched ops).filterMap (liveSize ops)).sum

/-- The size that a recording call replaces: that of the latest recording of
the same address when the calls `pre` made before it have not released it. -/
def staleSize (pre : List Op) (o : Op) : Nat :=
  match o.recordedSize, o.target with
  | some _, some a => (liveSize pre a).getD 0
  | _, _ => 0

/-- Sum of the sizes replaced by the recording calls of `ops`, made after
the calls `pre`. -/
def overwrittenFrom (pre : List Op) : List Op → Nat
  | [] => 0
  | o :: rest => staleSize pre o + overwrittenFrom (pre ++ [o]) rest

/-- Sum of the sizes of the recordings that a later recording of the same
address replaced before any release of it. -/
def overwrittenBytes (ops : List Op) : Nat := overwrittenFrom [] ops

/-- The records created by the recording calls of the sequence that are made
while the gate is open, in call order; `en` is the gate before the first
call. -/
def recordsMade : Bool → List Op → List AllocInfo
  | _, [] => []
  | en, .record p size frames :: rest =>
    (if en then [plainRecord p size frames] else []) ++ recordsMade en rest
  | en, .recordWithSite p size blockUsage filename line frames :: rest =>
    (if en then [customRecord p size blockUsage filename line frames] else []) ++
      recordsMade en rest
  | en, .release _ :: rest => recordsMade en rest
  | _, .enableLeakCheck v :: rest => recordsMade v rest

/-- A file name of 600 characters. -/
def longName : String := String.mk (List.replicate 600 'a')

/-- The registry state `g` agrees with the sequence of calls `ops` that led
to it from the initial state. -/
structure Tracks (ops : List Op) (g : MemoryLeakBusterCustom) : Prop where
  enabled : g.m_enabled = true
  ordered : g.m_leakinfo.Ordered
  sizes : ∀ a, (g.m_leakinfo.find a).map AllocInfo.size = liveSize ops a
  locations : ∀ a r, g.m_leakinfo.find a = some r → r.location = a
  leaked : g.allMemoryleakSize = g.m_leakinfo.sizeSum + overwrittenBytes ops
  alloc : g.allAllocSize = recordedBytes ops
  le : g.allMemoryleakSize ≤ g.allAllocSize

/-! # Properties -/

namespace DataTable

theorem find_assign (t : DataTable) (p : Nat) (cs : AllocInfo) (a : Nat) :
    find (assign t p cs) a = if p = a then some cs else find t a := by
  induction t with
  | nil => simp [assign, find]
  | cons e t ih =>
    obtain ⟨k, v⟩ := e
    by_cases h1 : p < k
    · have hk : ¬ k = p := by omega
      by_cases hpa : p = a
      · subst hpa
        simp [assign, h1, find]
      · simp [assign, h1, find, hpa]
    · by_cases h2 : p = k
      · subst h2
        by_cases hpa : p = a
        · simp [assign, find, hpa]
        · simp [assign, find, hpa]
      · have hk : ¬ k = p := fun x => h2 x.symm
        by_cases hpa : p = a
        · subst hpa
          simp [assign, h1, h2, find, hk, ih]
        · simp [assign, h1, h2, find, ih, hpa]

theorem mem_keys_iff (t : DataTable) (a : Nat) : a ∈ t.keys ↔ (find t a).isSome = true := by
  induction t with
  | nil => simp [keys, find]
  | cons e t ih =>
    obtain ⟨k, v⟩ := e
    by_cases h : k = a
    · simp [keys, find, h]
    · have h2 : ¬ a = k := fun x => h x.symm
      simp only [keys, List.map_cons, List.mem_cons, h2, false_or, find, if_neg h]
      exact ih

theorem find_eq_none_of_lt (t : DataTable) (a : Nat) (h : ∀ k ∈ t.keys, a < k) :
    find t a = none := by
  cases hf : find t a with
  | none => rfl
  | some v =>
    have : a ∈ t.keys := (mem_keys_iff t a).2 (by simp [hf])
    exact absurd (h a this) (lt_irrefl a)

theorem ordered_cons (k : Nat) (v : AllocInfo) (t : DataTable) :
    Ordered ((k, v) :: t) ↔ (∀ b ∈ t.keys, k < b) ∧ Ordered t := by
  simp [Ordered, keys, List.pairwise_cons]

theorem mem_keys_assign (t : DataTable) (p : Nat) (cs : AllocInfo) (a : Nat) :
    a ∈ (assign t p cs).keys ↔ a = p ∨ a ∈ t.keys := by
  rw [mem_keys_iff, mem_keys_iff, find_assign]
  by_cases h : p = a
  · simp [h]
  · have : ¬ a = p := fun x => h x.symm
    simp [h, this]

theorem ordered_assign (t : DataTable) (p : Nat) (cs : AllocInfo) (h : Ordered t) :
    Ordered (assign t p cs) := by
  induction t with
  | nil => simp [assign, Ordered, keys]
  | cons e t ih =>
    obtain ⟨k, v⟩ := e
    rw [ordered_cons] at h
    unfold assign
    split_ifs with h1 h2
    · rw [ordered_cons]
      refine ⟨?_, (ordered_cons k v t).2 h⟩
      intro b hb
      simp only [keys, List.map_cons, List.mem_cons] at hb
      rcases hb with hb | hb
      · omega
      · have := h.1 b hb
        omega
    · subst h2
      exact (ordered_cons p cs t).2 h
    · rw [ordered_cons]
      refine ⟨?_, ih h.2⟩
      intro b hb
      rcases (mem_keys_assign t p cs b).1 hb with hb | hb
      · omega
      · exact h.1 b hb

theorem mem_keys_erase (t : DataTable) (p a : Nat) (h : a ∈ (erase t p).keys) : a ∈ t.keys := by
  induction t with
  | nil => simp [erase, keys] at h
  | cons e t ih =>
    obtain ⟨k, v⟩ := e
    unfold erase at h
    split_ifs at h with h1
    · simp only [keys, List.map_cons, List.mem_cons]
      exact Or.inr h
    · simp only [keys, List.map_cons, List.mem_cons] at h ⊢
      rcases h with h | h
      · exact Or.inl h
      · exact Or.inr (ih h)

theorem ordered_erase (t : DataTable) (p : Nat) (h : Ordered t) : Ordered (erase t p) := by
  induction t with
  | nil => simp [erase, Ordered, keys]
  | cons e t ih =>
    obtain ⟨k, v⟩ := e
    rw [ordered_cons] at h
    unfold erase
    split_ifs with h1
    · exact h.2
    · rw [ordered_cons]
      exact ⟨fun b hb => h.1 b (mem_keys_erase t p b hb), ih h.2⟩

theorem find_erase (t : DataTable) (p a : Nat) (h : Ordered t) :
    find (erase t p) a = if p = a then none else find t a := by
  induction t with
  | nil => simp [erase, find]
  | cons e t ih =>
    obtain ⟨k, v⟩ := e
    rw [ordered_cons] at h
    unfold erase
    split_ifs with h1 h2 h3
    · subst h1; subst h2
      exact find_eq_none_of_lt t k h.1
    · have : ¬ k = a := fun x => h2 (h1 ▸ x)
      simp [find, this]
    · subst h3
      simp only [find, if_neg h1]
      rw [ih h.2]; simp
    · simp only [find]
      rw [ih h.2, if_neg h3]

theorem sizeSum_erase (t : DataTable) (p : Nat) (info : AllocInfo) (h : find t p = some info) :
    sizeSum (erase t p) + info.size = sizeSum t := by
  induction t with
  | nil => simp [find] at h
  | cons e t ih =>
    obtain ⟨k, v⟩ := e
    unfold erase
    unfold find at h
    split_ifs at h ⊢ with h1
    · simp only [Option.some.injEq] at h
      subst h
      simp [sizeSum]; omega
    · have := ih h
      simp only [sizeSum, List.map_cons, List.sum_cons] at this ⊢
      omega

theorem sizeSum_assign (t : DataTable) (p : Nat) (cs : AllocInfo) (h : Ordered t) :
    sizeSum (assign t p cs) + ((find t p).map AllocInfo.size).getD 0 = sizeSum t + cs.size := by
  induction t with
  | nil => simp [assign, find, sizeSum]
  | cons e t ih =>
    obtain ⟨k, v⟩ := e
    rw [ordered_cons] at h
    unfold assign
    split_ifs with h1 h2
    · have hk : ¬ k = p := by omega
      have hn : find t p = none :=
        find_eq_none_of_lt t p (fun b hb => lt_trans h1 (h.1 b hb))
      simp [find, hk, hn, sizeSum]; omega
    · subst h2
      simp [find, sizeSum]; omega
    · have hk : ¬ k = p := fun x => h2 x.symm
      have := ih h.2
      simp only [find, if_neg hk, sizeSum, List.map_cons, List.sum_cons] at this ⊢
      omega

theorem keys_nodup (t : DataTable) (h : Ordered t) : t.keys.Nodup := by
  unfold Ordered at h
  exact h.imp (fun hab => Nat.ne_of_lt hab)

end DataTable

/-! ## Sequences: one more call at the end -/

theorem run_snoc (g : MemoryLeakBusterCustom) (l : List Op) (o : Op) :
    run g (l ++ [o]) = (run g l).bind (fun g1 => step g1 o) := by
  induction l generalizing g with
  | nil =>
    simp only [List.nil_append, run, Option.some_bind]
    cases step g o <;> rfl
  | cons x l ih =>
    simp only [List.cons_append, run]
    cases step g x with
    | none => rfl
    | some g1 => exact ih g1

theorem holdsAlong_snoc (guard : MemoryLeakBusterCustom → Op → Bool)
    (g : MemoryLeakBusterCustom) (l : List Op) (o : Op) :
    holdsAlong guard g (l ++ [o]) =
      (holdsAlong guard g l &&
        match run g l with
        | none => true
        | some g1 => guard g1 o) := by
  induction l generalizing g with
  | nil =>
    simp only [List.nil_append, holdsAlong, run, Bool.true_and]
    cases step g o <;> simp
  | cons x l ih =>
    simp only [List.cons_append, holdsAlong, run]
    cases step g x with
    | none => simp
    | some g1 =>
      have h := ih g1
      simp only [List.append_eq] at h ⊢
      rw [h, Bool.and_assoc]

theorem lastTouch_snoc (l : List Op) (o : Op) (a : Nat) :
    lastTouch (l ++ [o]) a = if o.target = some a then some o else lastTouch l a := by
  simp only [lastTouch, List.reverse_append, List.reverse_cons, List.reverse_nil,
    List.nil_append, List.singleton_append, List.find?_cons]
  by_cases h : o.target = some a <;> simp [h]

theorem liveSize_snoc (l : List Op) (o : Op) (a : Nat) :
    liveSize (l ++ [o]) a = if o.target = some a then o.recordedSize else liveSize l a := by
  simp only [liveSize, lastTouch_snoc]
  by_cases h : o.target = some a <;> simp [h]

theorem recordedBytes_snoc (l : List Op) (o : Op) :
    recordedBytes (l ++ [o]) = recordedBytes l + o.recordedSize.getD 0 := by
  simp only [recordedBytes, List.filterMap_append, List.sum_append]
  cases h : o.recordedSize <;> simp [List.filterMap_cons, h]

theorem overwrittenFrom_snoc (pre l : List Op) (o : Op) :
    overwrittenFrom pre (l ++ [o]) = overwrittenFrom pre l + staleSize (pre ++ l) o := by
  induction l generalizing pre with
  | nil => simp [overwrittenFrom]
  | cons x l ih =>
    have h := ih (pre ++ [x])
    simp only [List.cons_append, overwrittenFrom, List.append_eq] at h ⊢
    rw [h]
    simp [Nat.add_assoc]

theorem overwrittenBytes_snoc (l : List Op) (o : Op) :
    overwrittenBytes (l ++ [o]) = overwrittenBytes l + staleSize l o := by
  simp [overwrittenBytes, overwrittenFrom_snoc]

theorem callsOnly_snoc (l : List Op) (o : Op) :
    callsOnly (l ++ [o]) = (callsOnly l && o.isCall) := by
  simp [callsOnly, List.all_append]

theorem namesFit_snoc (l : List Op) (o : Op) :
    namesFit (l ++ [o]) = (namesFit l && o.nameFits) := by
  simp [namesFit, List.all_append]

/-! ## The registry follows the sequence of calls -/

theorem tracks_init : Tracks [] init := by
  refine ⟨rfl, ?_, ?_, ?_, ?_, ?_, ?_⟩
  · simp [init, DataTable.Ordered, DataTable.keys]
  · intro a; simp [init, DataTable.find, liveSize, lastTouch]
  · intro a r h; simp [init, DataTable.find] at h
  · simp [init, DataTable.sizeSum, overwrittenBytes, overwrittenFrom]
  · simp [init, recordedBytes]
  · simp [init]

theorem tracks_add (l : List Op) (o : Op) (g : MemoryLeakBusterCustom) (p size : Nat)
    (cs : AllocInfo) (hT : Tracks l g) (htarget : o.target = some p)
    (hsize : o.recordedSize = some size) (hcs : cs.size = size) (hloc : cs.location = p)
    (hb : recordedBytes (l ++ [o]) < U64) :
    Tracks (l ++ [o])
      { g with
        m_leakinfo := g.m_leakinfo.assign p cs
        allAllocSize := (g.allAllocSize + size) % U64
        allMemoryleakSize := (g.allMemoryleakSize + size) % U64
        allocDataList := g.allocDataList ++ [cs] } := by
  have hrb : recordedBytes (l ++ [o]) = recordedBytes l + size := by
    rw [recordedBytes_snoc, hsize]; rfl
  have hstale : staleSize l o = ((g.m_leakinfo.find p).map AllocInfo.size).getD 0 := by
    simp only [staleSize, hsize, htarget, hT.sizes p]
  have hsum := DataTable.sizeSum_assign g.m_leakinfo p cs hT.ordered
  have hal := hT.alloc
  have hle := hT.le
  have hlk := hT.leaked
  have h1 : (g.allAllocSize + size) % U64 = g.allAllocSize + size :=
    Nat.mod_eq_of_lt (by omega)
  have h2 : (g.allMemoryleakSize + size) % U64 = g.allMemoryleakSize + size :=
    Nat.mod_eq_of_lt (by omega)
  refine ⟨hT.enabled, DataTable.ordered_assign _ p cs hT.ordered, ?_, ?_, ?_, ?_, ?_⟩
  · intro a
    simp only [DataTable.find_assign, liveSize_snoc, htarget, hsize, Option.some.injEq]
    by_cases h : p = a
    · simp [h, hcs]
    · simp only [if_neg h]; exact hT.sizes a
  · intro a r h
    simp only [DataTable.find_assign] at h
    by_cases hpa : p = a
    · simp only [if_pos hpa, Option.some.injEq] at h
      rw [← h, hloc, hpa]
    · simp only [if_neg hpa] at h
      exact hT.locations a r h
  · dsimp only
    rw [h2, overwrittenBytes_snoc, hstale]
    omega
  · dsimp only
    rw [h1, hrb]; omega
  · dsimp only
    rw [h1, h2]; omega

theorem find_size_le_sizeSum (t : DataTable) (p : Nat) (info : AllocInfo)
    (h : t.find p = some info) : info.size ≤ t.sizeSum := by
  have := DataTable.sizeSum_erase t p info h
  omega

theorem tracks_erase (l : List Op) (g : MemoryLeakBusterCustom) (p : Nat) (info : AllocInfo)
    (hT : Tracks l g) (hf : g.m_leakinfo.find p = some info)
    (hb : recordedBytes l < U64) :
    Tracks (l ++ [Op.release p])
      { g with
        allMemoryleakSize := (g.allMemoryleakSize + U64 - info.size % U64) % U64
        m_leakinfo := g.m_leakinfo.erase p } := by
  have hsum := DataTable.sizeSum_erase g.m_leakinfo p info hf
  have hal := hT.alloc
  have hle := hT.le
  have hlk := hT.leaked
  have hs : info.size % U64 = info.size := Nat.mod_eq_of_lt (by omega)
  have h2 : (g.allMemoryleakSize + U64 - info.size % U64) % U64
      = g.allMemoryleakSize - info.size := by
    rw [hs]
    have : g.allMemoryleakSize + U64 - info.size = (g.allMemoryleakSize - info.size) + U64 := by
      omega
    rw [this, Nat.add_mod_right]
    exact Nat.mod_eq_of_lt (by omega)
  have hstale : staleSize l (Op.release p) = 0 := by simp [staleSize, Op.recordedSize]
  refine ⟨hT.enabled, DataTable.ordered_erase _ p hT.ordered, ?_, ?_, ?_, ?_, ?_⟩
  · intro a
    simp only [DataTable.find_erase _ p a hT.ordered, liveSize_snoc, Op.target, Op.recordedSize,
      Option.some.injEq]
    by_cases h : p = a
    · simp [h]
    · simp only [if_neg h]; exact hT.sizes a
  · intro a r h
    rw [DataTable.find_erase _ p a hT.ordered] at h
    by_cases hpa : p = a
    · simp [hpa] at h
    · simp only [if_neg hpa] at h
      exact hT.locations a r h
  · dsimp only
    rw [h2, overwrittenBytes_snoc, hstale]
    omega
  · dsimp only
    rw [recordedBytes_snoc]; simp [Op.recordedSize, hal]
  · dsimp only
    rw [h2]; omega

theorem recordedBytes_le_snoc (l : List Op) (o : Op) :
    recordedBytes l ≤ recordedBytes (l ++ [o]) := by
  rw [recordedBytes_snoc]; omega

theorem addAllocationInfo_enabled (g : MemoryLeakBusterCustom) (h : g.m_enabled = true)
    (p size : Nat) (frames : List Nat) :
    addAllocationInfo g p size frames =
      { g with
        m_leakinfo := g.m_leakinfo.assign p (plainRecord p size frames)
        allAllocSize := (g.allAllocSize + size) % U64
        allMemoryleakSize := (g.allMemoryleakSize + size) % U64
        allocDataList := g.allocDataList ++ [plainRecord p size frames] } := by
  unfold addAllocationInfo
  rw [if_neg (by simp [h])]

theorem addCustomAllocationInfo_enabled (g : MemoryLeakBusterCustom) (h : g.m_enabled = true)
    (p size : Nat) (blockUsage : Int) (filename : String) (line : Int) (frames : List Nat)
    (hfit : filename.length < MaxStringBuffer) :
    addCustomAllocationInfo g p size blockUsage filename line frames =
      some { g with
        m_leakinfo :=
          g.m_leakinfo.assign p (customRecord p size blockUsage filename line frames)
        allAllocSize := (g.allAllocSize + size) % U64
        allMemoryleakSize := (g.allMemoryleakSize + size) % U64
        allocDataList :=
          g.allocDataList ++ [customRecord p size blockUsage filename line frames] } := by
  unfold addCustomAllocationInfo
  rw [if_neg (by simp [h]), if_neg (by omega)]

/-- Calls only, file names that fit, releases of live addresses and a total
of recorded sizes below `2 ^ 64`: the run returns a state that agrees with
the sequence. -/
theorem run_tracks (ops : List Op) (hc : callsOnly ops = true) (hn : namesFit ops = true)
    (hr : holdsAlong Op.releaseLive init ops = true) (hb : recordedBytes ops < U64) :
    ∃ g, run init ops = some g ∧ Tracks ops g := by
  induction ops using List.reverseRecOn with
  | nil => exact ⟨init, rfl, tracks_init⟩
  | append_singleton l o ih =>
    rw [callsOnly_snoc, Bool.and_eq_true] at hc
    rw [namesFit_snoc, Bool.and_eq_true] at hn
    rw [holdsAlong_snoc, Bool.and_eq_true] at hr
    have hbl : recordedBytes l < U64 := lt_of_le_of_lt (recordedBytes_le_snoc l o) hb
    obtain ⟨g, hg, hT⟩ := ih hc.1 hn.1 hr.1 hbl
    rw [run_snoc, hg, Option.some_bind]
    have hlive := hr.2
    rw [hg] at hlive
    have hen : g.m_enabled = true := hT.enabled
    cases o with
    | record p size frames =>
      refine ⟨_, rfl, ?_⟩
      rw [addAllocationInfo_enabled g hen]
      exact tracks_add l (Op.record p size frames) g p size _ hT rfl rfl rfl rfl hb
    | recordWithSite p size blockUsage filename line frames =>
      have hfit : filename.length < MaxStringBuffer := by
        simpa [Op.nameFits] using hn.2
      simp only [step]
      rw [addCustomAllocationInfo_enabled g hen p size blockUsage filename line frames hfit]
      exact ⟨_, rfl, tracks_add l (Op.recordWithSite p size blockUsage filename line frames)
        g p size _ hT rfl rfl rfl rfl hb⟩
    | release p =>
      simp only [Op.releaseLive] at hlive
      obtain ⟨info, hinfo⟩ := Option.isSome_iff_exists.1 hlive
      simp only [step, eraseAllocationInfo, hinfo]
      exact ⟨_, rfl, tracks_erase l g p info hT hinfo hbl⟩
    | enableLeakCheck v => simp [Op.isCall] at hc

/-! ## Live sizes and the bytes not released -/

theorem holdsAlong_mono (guard1 guard2 : MemoryLeakBusterCustom → Op → Bool)
    (h : ∀ g o, guard1 g o = true → guard2 g o = true) (g : MemoryLeakBusterCustom)
    (ops : List Op) (h1 : holdsAlong guard1 g ops = true) : holdsAlong guard2 g ops = true := by
  induction ops generalizing g with
  | nil => rfl
  | cons o rest ih =>
    simp only [holdsAlong, Bool.and_eq_true] at h1 ⊢
    refine ⟨h g o h1.1, ?_⟩
    cases hs : step g o with
    | none => rfl
    | some g1 =>
      have h2 := h1.2
      rw [hs] at h2
      exact ih g1 h2

theorem releaseLive_of_paired (g : MemoryLeakBusterCustom) (o : Op)
    (h : Op.paired g o = true) : Op.releaseLive g o = true := by
  cases o <;> simp_all [Op.paired, Op.releaseLive]

theorem overwrittenBytes_paired (ops : List Op) (hc : callsOnly ops = true)
    (hn : namesFit ops = true) (hp : holdsAlong Op.paired init ops = true)
    (hb : recordedBytes ops < U64) : overwrittenBytes ops = 0 := by
  induction ops using List.reverseRecOn with
  | nil => rfl
  | append_singleton l o ih =>
    rw [callsOnly_snoc, Bool.and_eq_true] at hc
    rw [namesFit_snoc, Bool.and_eq_true] at hn
    rw [holdsAlong_snoc, Bool.and_eq_true] at hp
    have hbl : recordedBytes l < U64 := lt_of_le_of_lt (recordedBytes_le_snoc l o) hb
    obtain ⟨g, hg, hT⟩ :=
      run_tracks l hc.1 hn.1 (holdsAlong_mono _ _ releaseLive_of_paired init l hp.1) hbl
    have hpo := hp.2
    rw [hg] at hpo
    rw [overwrittenBytes_snoc, ih hc.1 hn.1 hp.1 hbl, Nat.zero_add]
    cases o with
    | record p size frames =>
      simp only [Op.paired, Option.isNone_iff_eq_none] at hpo
      simp [staleSize, Op.recordedSize, Op.target, ← hT.sizes p, hpo]
    | recordWithSite p size blockUsage filename line frames =>
      simp only [Op.paired, Option.isNone_iff_eq_none] at hpo
      simp [staleSize, Op.recordedSize, Op.target, ← hT.sizes p, hpo]
    | release p => simp [staleSize, Op.recordedSize]
    | enableLeakCheck v => simp [staleSize, Op.recordedSize]

theorem find_of_mem (t : DataTable) (h : t.Ordered) (e : Nat × AllocInfo) (he : e ∈ t) :
    t.find e.1 = some e.2 := by
  induction t with
  | nil => simp at he
  | cons x t ih =>
    obtain ⟨k, v⟩ := x
    rw [DataTable.ordered_cons] at h
    rcases List.mem_cons.1 he with he | he
    · subst he; simp [DataTable.find]
    · have hk : e.1 ∈ DataTable.keys t := List.mem_map_of_mem Prod.fst he
      have hlt := h.1 e.1 hk
      have hne : ¬ k = e.1 := by omega
      simp only [DataTable.find, if_neg hne]
      exact ih h.2 he

theorem filterMap_eq_map_filter (f : Nat → Option Nat) (l : List Nat) :
    l.filterMap f = (l.filter (fun a => (f a).isSome)).map (fun a => (f a).getD 0) := by
  induction l with
  | nil => rfl
  | cons a l ih =>
    cases h : f a with
    | none => simp [List.filterMap_cons, h, List.filter_cons, ih]
    | some b => simp [List.filterMap_cons, h, List.filter_cons, ih]

theorem mem_touched_of_liveSize (ops : List Op) (a : Nat)
    (h : (liveSize ops a).isSome = true) : a ∈ touched ops := by
  unfold liveSize at h
  cases hl : lastTouch ops a with
  | none => simp [hl] at h
  | some o =>
    unfold lastTouch at hl
    have hmem : o ∈ ops := List.mem_reverse.1 (List.mem_of_find?_eq_some hl)
    have htarget : o.target = some a := by simpa using List.find?_some hl
    exact List.mem_dedup.2 (List.mem_filterMap.2 ⟨o, hmem, htarget⟩)

theorem sizeSum_eq_unreleasedBytes (ops : List Op) (g : MemoryLeakBusterCustom)
    (hT : Tracks ops g) : g.m_leakinfo.sizeSum = unreleasedBytes ops := by
  have h1 : g.m_leakinfo.map (fun e => e.2.size)
      = g.m_leakinfo.keys.map (fun a => (liveSize ops a).getD 0) := by
    unfold DataTable.keys
    rw [List.map_map]
    apply List.map_congr_left
    intro e he
    simp only [Function.comp, ← hT.sizes e.1, find_of_mem _ hT.ordered e he]
    rfl
  have hperm : g.m_leakinfo.keys.Perm
      ((touched ops).filter (fun a => (liveSize ops a).isSome)) := by
    have hnd : ((touched ops).filter (fun a => (liveSize ops a).isSome)).Nodup := by
      unfold touched
      exact (List.nodup_dedup _).filter _
    rw [List.perm_ext_iff_of_nodup (DataTable.keys_nodup _ hT.ordered) hnd]
    intro a
    rw [DataTable.mem_keys_iff, List.mem_filter, ← hT.sizes a]
    constructor
    · intro h
      have h2 : (liveSize ops a).isSome = true := by
        rw [← hT.sizes a]; simpa using h
      exact ⟨mem_touched_of_liveSize ops a h2, by simpa using h⟩
    · intro h; simpa using h.2
  unfold DataTable.sizeSum unreleasedBytes
  rw [h1, filterMap_eq_map_filter]
  exact (hperm.map _).sum_eq

theorem table_eq_nil_of_no_keys (t : DataTable) (h : ∀ a, a ∉ t.keys) : t = [] := by
  cases t with
  | nil => rfl
  | cons e t => exact absurd (List.mem_cons_self e.1 _) (h e.1)

theorem longName_length : longName.length = 600 := by
  show (List.replicate 600 'a').length = 600
  exact List.length_replicate 600 'a'

theorem addCustomAllocationInfo_longName (g : MemoryLeakBusterCustom) (h : g.m_enabled = true)
    (p size : Nat) (blockUsage : Int) (line : Int) (frames : List Nat) :
    addCustomAllocationInfo g p size blockUsage longName line frames = none := by
  unfold addCustomAllocationInfo
  rw [if_neg (by simp [h]), if_pos (by rw [longName_length]; decide)]

/-! ## Release of an address that is not a key of the live table -/

/-- C1. In the code, `eraseAllocationInfo` on an address that is not a key
of the live table dereferences the end iterator of the map: the call has no
defined result, for every registry state. -/
theorem eraseAllocationInfo_untracked (g : MemoryLeakBusterCustom) (p : Nat)
    (h : g.m_leakinfo.find p = none) : eraseAllocationInfo g p = none := by
  simp [eraseAllocationInfo, h]

/-- An address that was never recorded; an address that was recorded and
released; an address recorded while the gate was closed. -/
theorem eraseAllocationInfo_untracked_witness :
    (init.m_leakinfo.find 4096 = none ∧ eraseAllocationInfo init 4096 = none) ∧
      (∃ g, run init [Op.record 4096 16 [], Op.release 4096] = some g ∧
        eraseAllocationInfo g 4096 = none) ∧
      (∃ g, run init [Op.enableLeakCheck false, Op.record 4096 16 []] = some g ∧
        eraseAllocationInfo g 4096 = none) :=
  ⟨⟨by decide, eraseAllocationInfo_untracked init 4096 (by decide)⟩,
    ⟨_, rfl, eraseAllocationInfo_untracked _ 4096 (by decide)⟩,
    ⟨_, rfl, eraseAllocationInfo_untracked _ 4096 (by decide)⟩⟩

/-! ## Paired recordings and releases -/

/-- C2 (amended). For every sequence of `record`, `recordWithSite` and
`release` calls from the initial state in which every annotated file name is
shorter than `MaxStringBuffer`, an address is recorded only while it is not a
key of the live table and released only while it is, and the recorded sizes
sum to less than `2 ^ 64`: the run returns a state whose live table has as
keys exactly the addresses whose latest recording has no later release, each
once and each mapped to a record of that address with the size of that latest
recording; `allMemoryleakSize` is the sum of the sizes in the table, which is
the sum of those sizes; when every recording was released the table is empty
and `allMemoryleakSize` is 0. -/
theorem paired_run_live_table (ops : List Op) (hc : callsOnly ops = true)
    (hn : namesFit ops = true) (hp : holdsAlong Op.paired init ops = true)
    (hb : recordedBytes ops < U64) :
    ∃ g, run init ops = some g ∧
      (∀ a, a ∈ g.m_leakinfo.keys ↔ (liveSize ops a).isSome = true) ∧
      (∀ a s, liveSize ops a = some s →
        ∃ r, g.m_leakinfo.find a = some r ∧ r.location = a ∧ r.size = s) ∧
      g.m_leakinfo.keys.Nodup ∧
      g.allMemoryleakSize = g.m_leakinfo.sizeSum ∧
      g.allMemoryleakSize = unreleasedBytes ops ∧
      ((∀ a, liveSize ops a = none) → g.m_leakinfo = [] ∧ g.allMemoryleakSize = 0) := by
  obtain ⟨g, hg, hT⟩ :=
    run_tracks ops hc hn (holdsAlong_mono _ _ releaseLive_of_paired init ops hp) hb
  have hov := overwrittenBytes_paired ops hc hn hp hb
  have hleak : g.allMemoryleakSize = g.m_leakinfo.sizeSum := by
    rw [hT.leaked, hov, Nat.add_zero]
  have hkeys : ∀ a, a ∈ g.m_leakinfo.keys ↔ (liveSize ops a).isSome = true := by
    intro a
    rw [DataTable.mem_keys_iff, ← hT.sizes a]
    simp
  refine ⟨g, hg, hkeys, ?_, DataTable.keys_nodup _ hT.ordered, hleak, ?_, ?_⟩
  · intro a s hs
    have h1 := hT.sizes a
    rw [hs] at h1
    cases hf : g.m_leakinfo.find a with
    | none => simp [hf] at h1
    | some r =>
      refine ⟨r, rfl, hT.locations a r hf, ?_⟩
      simpa [hf] using h1
  · rw [hleak]
    exact sizeSum_eq_unreleasedBytes ops g hT
  · intro hnone
    have hnil : g.m_leakinfo = [] := by
      apply table_eq_nil_of_no_keys
      intro a ha
      have := (hkeys a).1 ha
      simp [hnone a] at this
    refine ⟨hnil, ?_⟩
    rw [hleak, hnil]
    rfl

/-- A block of 16 bytes that is released, its address used again for a block
of 32 bytes, and an annotated block of 8 bytes: two entries, the first with
the size 32 of the second recording, and 40 bytes not released. -/
theorem paired_run_live_table_witness :
    (∃ g, run init [Op.record 4096 16 [], Op.release 4096, Op.record 4096 32 [],
        Op.recordWithSite 8192 8 1 "x.c" 42 []] = some g ∧
      g.m_leakinfo.keys = [4096, 8192] ∧
      (g.m_leakinfo.find 4096).map AllocInfo.size = some 32 ∧
      g.allMemoryleakSize = 40) ∧
    ∃ g, run init [Op.record 4096 16 [], Op.release 4096, Op.record 4096 32 [],
        Op.recordWithSite 8192 8 1 "x.c" 42 []] = some g ∧
      (∀ a, a ∈ g.m_leakinfo.keys ↔ (liveSize [Op.record 4096 16 [], Op.release 4096,
        Op.record 4096 32 [], Op.recordWithSite 8192 8 1 "x.c" 42 []] a).isSome = true) ∧
      (∀ a s, liveSize [Op.record 4096 16 [], Op.release 4096, Op.record 4096 32 [],
          Op.recordWithSite 8192 8 1 "x.c" 42 []] a = some s →
        ∃ r, g.m_leakinfo.find a = some r ∧ r.location = a ∧ r.size = s) ∧
      g.m_leakinfo.keys.Nodup ∧
      g.allMemoryleakSize = g.m_leakinfo.sizeSum ∧
      g.allMemoryleakSize = unreleasedBytes [Op.record 4096 16 [], Op.release 4096,
        Op.record 4096 32 [], Op.recordWithSite 8192 8 1 "x.c" 42 []] ∧
      ((∀ a, liveSize [Op.record 4096 16 [], Op.release 4096, Op.record 4096 32 [],
          Op.recordWithSite 8192 8 1 "x.c" 42 []] a = none) →
        g.m_leakinfo = [] ∧ g.allMemoryleakSize = 0) :=
  ⟨⟨_, rfl, by decide, by decide, by decide⟩,
    paired_run_live_table [Op.record 4096 16 [], Op.release 4096, Op.record 4096 32 [],
      Op.recordWithSite 8192 8 1 "x.c" 42 []] (by decide) (by decide) (by decide) (by decide)⟩

/-- C2 as stated fails: one annotated call with a file name of 600
characters satisfies the claim's conditions, and the run has no defined
result (the name is written past the end of the `filename` array). -/
theorem paired_run_long_name :
    callsOnly [Op.recordWithSite 4096 8 1 longName 42 []] = true ∧
      holdsAlong Op.paired init [Op.recordWithSite 4096 8 1 longName 42 []] = true ∧
      recordedBytes [Op.recordWithSite 4096 8 1 longName 42 []] < U64 ∧
      run init [Op.recordWithSite 4096 8 1 longName 42 []] = none := by
  have h := addCustomAllocationInfo_longName init rfl 4096 8 1 42 []
  refine ⟨by decide, ?_, by decide, ?_⟩
  · simp only [holdsAlong, step, h]
    decide
  · simp only [run, step, h]

/-! ## The leaked-bytes counter and the live table -/

/-- C3 (amended). For every sequence of `record`, `recordWithSite` and
`release` calls from the initial state in which the recording calls are
arbitrary, every annotated file name is shorter than `MaxStringBuffer`,
every release is about a key of the live table and the recorded sizes sum to
less than `2 ^ 64`: `allMemoryleakSize` is the sum of `size` over the
entries of the live table plus the sizes of the entries that a recording
call replaced while they were in the table; it is the sum over the table
when no recording replaced an entry. -/
theorem leaked_eq_live_plus_overwritten (ops : List Op) (hc : callsOnly ops = true)
    (hn : namesFit ops = true) (hr : holdsAlong Op.releaseLive init ops = true)
    (hb : recordedBytes ops < U64) :
    ∃ g, run init ops = some g ∧
      g.allMemoryleakSize = g.m_leakinfo.sizeSum + overwrittenBytes ops ∧
      (overwrittenBytes ops = 0 → g.allMemoryleakSize = g.m_leakinfo.sizeSum) := by
  obtain ⟨g, hg, hT⟩ := run_tracks ops hc hn hr hb
  refine ⟨g, hg, hT.leaked, ?_⟩
  intro h0
  rw [hT.leaked, h0, Nat.add_zero]

/-- An address recorded with 10 bytes, recorded again with 5 bytes while
the first entry is in the table, then released. -/
theorem leaked_eq_live_plus_overwritten_witness :
    overwrittenBytes [Op.record 4096 10 [], Op.record 4096 5 [], Op.release 4096] = 10 ∧
      ∃ g, run init [Op.record 4096 10 [], Op.record 4096 5 [], Op.release 4096] = some g ∧
        g.allMemoryleakSize = g.m_leakinfo.sizeSum +
          overwrittenBytes [Op.record 4096 10 [], Op.record 4096 5 [], Op.release 4096] ∧
        (overwrittenBytes [Op.record 4096 10 [], Op.record 4096 5 [], Op.release 4096] = 0 →
          g.allMemoryleakSize = g.m_leakinfo.sizeSum) :=
  ⟨by decide,
    leaked_eq_live_plus_overwritten
      [Op.record 4096 10 [], Op.record 4096 5 [], Op.release 4096]
      (by decide) (by decide) (by decide) (by decide)⟩

/-- C3 as stated fails: recording an address with 10 bytes and again with 5
bytes, with no release in between, meets the claim's conditions and leaves
one entry of 5 bytes in the live table while `allMemoryleakSize` is 15. And
a sequence with one annotated call whose file name has 600 characters meets
the claim's conditions and has no defined result. -/
theorem leaked_ne_live_after_overwrite :
    (callsOnly [Op.record 4096 10 [], Op.record 4096 5 []] = true ∧
      holdsAlong Op.releaseLive init [Op.record 4096 10 [], Op.record 4096 5 []] = true ∧
      recordedBytes [Op.record 4096 10 [], Op.record 4096 5 []] < U64 ∧
      ∃ g, run init [Op.record 4096 10 [], Op.record 4096 5 []] = some g ∧
        g.m_leakinfo.keys = [4096] ∧ g.m_leakinfo.sizeSum = 5 ∧ g.allMemoryleakSize = 15) ∧
    (callsOnly [Op.recordWithSite 4096 8 1 longName 42 []] = true ∧
      holdsAlong Op.releaseLive init [Op.recordWithSite 4096 8 1 longName 42 []] = true ∧
      recordedBytes [Op.recordWithSite 4096 8 1 longName 42 []] < U64 ∧
      run init [Op.recordWithSite 4096 8 1 longName 42 []] = none) := by
  have h := addCustomAllocationInfo_longName init rfl 4096 8 1 42 []
  refine ⟨⟨by decide, by decide, by decide, _, rfl, ?_, ?_, ?_⟩, by decide, ?_, by decide, ?_⟩
  · decide
  · decide
  · decide
  · simp only [holdsAlong, step, h]
    decide
  · simp only [run, step, h]

/-! ## The two counters -/

/-- C4 (amended). After every sequence of `record`, `recordWithSite` and
`release` calls from the initial state in which every release is about a key
of the live table, every annotated file name is shorter than
`MaxStringBuffer` and the recorded sizes sum to less than `2 ^ 64`, the
stored counters satisfy `allMemoryleakSize ≤ allAllocSize`, and
`allAllocSize` is the sum of the recorded sizes. -/
theorem leaked_le_allocated (ops : List Op) (hc : callsOnly ops = true)
    (hn : namesFit ops = true) (hr : holdsAlong Op.releaseLive init ops = true)
    (hb : recordedBytes ops < U64) :
    ∃ g, run init ops = some g ∧ g.allMemoryleakSize ≤ g.allAllocSize ∧
      g.allAllocSize = recordedBytes ops := by
  obtain ⟨g, hg, hT⟩ := run_tracks ops hc hn hr hb
  exact ⟨g, hg, hT.le, hT.alloc⟩

/-- Two blocks of 24 and 40 bytes, the first one released. -/
theorem leaked_le_allocated_witness :
    ∃ g, run init [Op.record 4096 24 [], Op.recordWithSite 8192 40 1 "a.cpp" 7 [],
        Op.release 4096] = some g ∧
      g.allMemoryleakSize ≤ g.allAllocSize ∧
      g.allAllocSize = recordedBytes [Op.record 4096 24 [],
        Op.recordWithSite 8192 40 1 "a.cpp" 7 [], Op.release 4096] :=
  leaked_le_allocated
    [Op.record 4096 24 [], Op.recordWithSite 8192 40 1 "a.cpp" 7 [], Op.release 4096]
    (by decide) (by decide) (by decide) (by decide)

/-- C4 as stated fails: a block of `2 ^ 63` bytes is recorded, released, and
its address recorded again with `2 ^ 63` bytes. Every release is about a key
of the live table; `allAllocSize` has wrapped to 0 and `allMemoryleakSize`
is `2 ^ 63`. And a sequence with one annotated call whose file name has 600
characters has no defined result, so no counters to compare. -/
theorem leaked_gt_allocated_after_wrap :
    (callsOnly [Op.record 4096 (2 ^ 63) [], Op.release 4096, Op.record 4096 (2 ^ 63) []] = true ∧
      holdsAlong Op.releaseLive init
        [Op.record 4096 (2 ^ 63) [], Op.release 4096, Op.record 4096 (2 ^ 63) []] = true ∧
      ∃ g, run init
          [Op.record 4096 (2 ^ 63) [], Op.release 4096, Op.record 4096 (2 ^ 63) []] = some g ∧
        g.allAllocSize = 0 ∧ g.allMemoryleakSize = 2 ^ 63 ∧
        ¬ g.allMemoryleakSize ≤ g.allAllocSize) ∧
    (callsOnly [Op.recordWithSite 4096 8 1 longName 42 []] = true ∧
      holdsAlong Op.releaseLive init [Op.recordWithSite 4096 8 1 longName 42 []] = true ∧
      run init [Op.recordWithSite 4096 8 1 longName 42 []] = none) := by
  have h := addCustomAllocationInfo_longName init rfl 4096 8 1 42 []
  refine ⟨⟨by decide, by decide, _, rfl, ?_, ?_, ?_⟩, by decide, ?_, ?_⟩
  · decide
  · decide
  · decide
  · simp only [holdsAlong, step, h]
    decide
  · simp only [run, step, h]

/-! ## The history log -/

theorem run_history (ops : List Op) :
    ∀ g : MemoryLeakBusterCustom, namesFit ops = true →
      holdsAlong Op.releaseLive g ops = true →
      ∃ g1, run g ops = some g1 ∧
        g1.allocDataList = g.allocDataList ++ recordsMade g.m_enabled ops ∧
        g1.allAllocSize % U64 =
          (g.allAllocSize + ((recordsMade g.m_enabled ops).map AllocInfo.size).sum) % U64 := by
  induction ops with
  | nil => intro g _ _; exact ⟨g, rfl, by simp [recordsMade], by simp [recordsMade]⟩
  | cons o rest ih =>
    intro g hn hr
    have hn2 : o.nameFits = true ∧ namesFit rest = true := by
      simpa [namesFit, List.all_cons] using hn
    simp only [holdsAlong, Bool.and_eq_true] at hr
    cases o with
    | record p size frames =>
      have hr2 := hr.2
      simp only [step] at hr2
      obtain ⟨g1, h1, h2, h3⟩ := ih _ hn2.2 hr2
      refine ⟨g1, by simp only [run, step]; exact h1, ?_, ?_⟩
      · cases hen : g.m_enabled
        · rw [h2]; simp [addAllocationInfo, hen, recordsMade]
        · rw [h2, addAllocationInfo_enabled g hen]; simp [recordsMade, hen]
      · cases hen : g.m_enabled
        · rw [h3]; simp [addAllocationInfo, hen, recordsMade]
        · rw [h3, addAllocationInfo_enabled g hen]
          simp only [recordsMade, hen, if_true, List.singleton_append, List.map_cons,
            List.sum_cons, plainRecord, Nat.mod_add_mod, Nat.add_assoc]
    | recordWithSite p size blockUsage filename line frames =>
      have hfit : filename.length < MaxStringBuffer := by
        simpa [Op.nameFits] using hn2.1
      cases hen : g.m_enabled
      · have hs : step g (Op.recordWithSite p size blockUsage filename line frames) = some g := by
          simp [step, addCustomAllocationInfo, hen]
        have hr2 := hr.2
        rw [hs] at hr2
        obtain ⟨g1, h1, h2, h3⟩ := ih g hn2.2 hr2
        refine ⟨g1, by simp only [run, hs]; exact h1, ?_, ?_⟩
        · rw [h2, hen]; simp [recordsMade]
        · rw [h3, hen]; simp [recordsMade]
      · have hs := addCustomAllocationInfo_enabled g hen p size blockUsage filename line frames hfit
        have hr2 := hr.2
        simp only [step, hs] at hr2
        obtain ⟨g1, h1, h2, h3⟩ := ih _ hn2.2 hr2
        refine ⟨g1, by simp only [run, step, hs]; exact h1, ?_, ?_⟩
        · rw [h2]; simp [recordsMade, hen]
        · rw [h3]
          simp only [recordsMade, hen, if_true, List.singleton_append, List.map_cons,
            List.sum_cons, customRecord, Nat.mod_add_mod, Nat.add_assoc]
    | release p =>
      have hlive := hr.1
      simp only [Op.releaseLive] at hlive
      obtain ⟨info, hinfo⟩ := Option.isSome_iff_exists.1 hlive
      have hs : step g (Op.release p) = some
          { g with
            allMemoryleakSize := (g.allMemoryleakSize + U64 - info.size % U64) % U64
            m_leakinfo := g.m_leakinfo.erase p } := by
        simp [step, eraseAllocationInfo, hinfo]
      have hr2 := hr.2
      rw [hs] at hr2
      obtain ⟨g1, h1, h2, h3⟩ := ih _ hn2.2 hr2
      exact ⟨g1, by simp only [run, hs]; exact h1, by rw [h2]; simp [recordsMade],
        by rw [h3]; simp [recordsMade]⟩
    | enableLeakCheck v =>
      have hr2 := hr.2
      simp only [step] at hr2
      obtain ⟨g1, h1, h2, h3⟩ := ih _ hn2.2 hr2
      exact ⟨g1, by simp only [run, step]; exact h1, by rw [h2]; simp [recordsMade, enableLeakCheck],
        by rw [h3]; simp [recordsMade, enableLeakCheck]⟩

theorem step_allAllocSize_lt (g g1 : MemoryLeakBusterCustom) (o : Op)
    (h : g.allAllocSize < U64) (hs : step g o = some g1) : g1.allAllocSize < U64 := by
  have hpos : 0 < U64 := by decide
  cases o with
  | record p size frames =>
    simp only [step, Option.some.injEq] at hs
    subst hs
    unfold addAllocationInfo
    split
    · exact h
    · exact Nat.mod_lt _ hpos
  | recordWithSite p size blockUsage filename line frames =>
    simp only [step, addCustomAllocationInfo] at hs
    split at hs
    · simp only [Option.some.injEq] at hs; subst hs; exact h
    · split at hs
      · simp at hs
      · simp only [Option.some.injEq] at hs; subst hs; exact Nat.mod_lt _ hpos
  | release p =>
    simp only [step, eraseAllocationInfo] at hs
    split at hs
    · simp at hs
    · simp only [Option.some.injEq] at hs; subst hs; exact h
  | enableLeakCheck v =>
    simp only [step, Option.some.injEq] at hs
    subst hs; exact h

theorem run_allAllocSize_lt (ops : List Op) :
    ∀ g g1 : MemoryLeakBusterCustom, g.allAllocSize < U64 → run g ops = some g1 →
      g1.allAllocSize < U64 := by
  induction ops with
  | nil => intro g g1 h hr; simp only [run, Option.some.injEq] at hr; subst hr; exact h
  | cons o rest ih =>
    intro g g1 h hr
    simp only [run] at hr
    cases hs : step g o with
    | none => simp [hs] at hr
    | some g2 =>
      rw [hs] at hr
      exact ih g2 g1 (step_allAllocSize_lt g g2 o h hs) hr

/-- C8 (amended). For every sequence of calls (`record`, `recordWithSite`,
`release`, `enableLeakCheck`) from the initial state in which every annotated
file name is shorter than `MaxStringBuffer` and every release is about a key
of the live table: the history log is exactly the list of the records created
by the recording calls made while the gate was open, one per call and in call
order, whether or not their address was released later, and `allAllocSize` is
the sum of their sizes modulo `2 ^ 64`. A release that returns leaves the
history log as it was. -/
theorem history_is_records_made (ops : List Op) (hn : namesFit ops = true)
    (hr : holdsAlong Op.releaseLive init ops = true) :
    ∃ g, run init ops = some g ∧
      g.allocDataList = recordsMade true ops ∧
      g.allAllocSize = ((recordsMade true ops).map AllocInfo.size).sum % U64 ∧
      ∀ (g0 g1 : MemoryLeakBusterCustom) (p : Nat),
        eraseAllocationInfo g0 p = some g1 → g1.allocDataList = g0.allocDataList := by
  obtain ⟨g, h1, h2, h3⟩ := run_history ops init hn hr
  have hlt : g.allAllocSize < U64 := run_allAllocSize_lt ops init g (by decide) h1
  refine ⟨g, h1, ?_, ?_, ?_⟩
  · rw [h2]; rfl
  · rw [Nat.mod_eq_of_lt hlt] at h3
    rw [h3]
    simp [init]
  · intro g0 g1 p he
    simp only [eraseAllocationInfo] at he
    split at he
    · simp at he
    · simp only [Option.some.injEq] at he
      subst he
      rfl

/-- Blocks of 16, 32 and 64 bytes at three addresses, the second one
released: three history entries in call order, 112 bytes allocated. -/
theorem history_is_records_made_witness :
    recordsMade true [Op.record 4096 16 [], Op.record 8192 32 [], Op.record 12288 64 [],
        Op.release 8192] =
      [plainRecord 4096 16 [], plainRecord 8192 32 [], plainRecord 12288 64 []] ∧
    (∃ g, run init [Op.record 4096 16 [], Op.record 8192 32 [], Op.record 12288 64 [],
        Op.release 8192] = some g ∧ g.allAllocSize = 112 ∧ g.allMemoryleakSize = 80 ∧
      g.m_leakinfo.keys = [4096, 12288]) ∧
    ∃ g, run init [Op.record 4096 16 [], Op.record 8192 32 [], Op.record 12288 64 [],
        Op.release 8192] = some g ∧
      g.allocDataList = recordsMade true [Op.record 4096 16 [], Op.record 8192 32 [],
        Op.record 12288 64 [], Op.release 8192] ∧
      g.allAllocSize = ((recordsMade true [Op.record 4096 16 [], Op.record 8192 32 [],
        Op.record 12288 64 [], Op.release 8192]).map AllocInfo.size).sum % U64 ∧
      ∀ (g0 g1 : MemoryLeakBusterCustom) (p : Nat),
        eraseAllocationInfo g0 p = some g1 → g1.allocDataList = g0.allocDataList :=
  ⟨by decide, ⟨_, rfl, by decide, by decide, by decide⟩,
    history_is_records_made [Op.record 4096 16 [], Op.record 8192 32 [],
      Op.record 12288 64 [], Op.release 8192] (by decide) (by decide)⟩

/-- Recording calls made while the gate is closed leave no entry in the
history log. -/
theorem recordsMade_gate_example :
    recordsMade true [Op.record 4096 16 [], Op.enableLeakCheck false, Op.record 8192 32 [],
        Op.enableLeakCheck true, Op.recordWithSite 12288 64 1 "x.c" 42 [], Op.release 4096] =
      [plainRecord 4096 16 [], customRecord 12288 64 1 "x.c" 42 []] := by
  decide

/-- C8 as stated fails: a sequence that holds one annotated call with a
file name of 600 characters has no defined result, and so has no history
log; the same holds for a sequence that holds one release of an address
that was never recorded. -/
theorem history_undefined :
    run init [Op.recordWithSite 4096 8 1 longName 42 []] = none ∧
      run init [Op.release 4096] = none := by
  refine ⟨?_, by decide⟩
  simp only [run, step, addCustomAllocationInfo_longName init rfl 4096 8 1 42 []]

/-! ## A failed raw allocation -/

theorem booked_add (g : MemoryLeakBusterCustom) (p size : Nat) (cs : AllocInfo)
    (hloc : cs.location = p) (hsize : cs.size = size) :
    Booked g
      { g with
        m_leakinfo := g.m_leakinfo.assign p cs
        allAllocSize := (g.allAllocSize + size) % U64
        allMemoryleakSize := (g.allMemoryleakSize + size) % U64
        allocDataList := g.allocDataList ++ [cs] } cs := by
  refine ⟨?_, rfl, ?_, ?_⟩
  · simp [DataTable.find_assign, hloc]
  · simp [hsize]
  · simp [hsize]

/-- C5 (amended). When the raw allocator returns null inside one of the four
allocation entry points, null is what the caller receives (from the two
annotated entry points: whenever the gate is closed or the file name is
shorter than `MaxStringBuffer`). While the gate is closed the registry is
left as it was. While the gate is open (and, for the
annotated entry points, the file name is shorter than `MaxStringBuffer`) the
bookkeeping is done for the null block as for any other: a record with
location 0 and the requested size is stored under the key 0 of the live
table and appended to the history log, and both counters grow by the
requested size. -/
theorem null_block_is_booked (g : MemoryLeakBusterCustom) (size : Nat) (blockUse : Int)
    (fileName : String) (lineNumber : Int) (frames : List Nat) :
    (operatorNew g 0 size frames).2 = 0 ∧
    (operatorNewArray g 0 size frames).2 = 0 ∧
    (g.m_enabled = false →
      operatorNew g 0 size frames = (g, 0) ∧
      operatorNewArray g 0 size frames = (g, 0) ∧
      operatorNewSite g 0 size blockUse fileName lineNumber frames = some (g, 0) ∧
      operatorNewArraySite g 0 size blockUse fileName lineNumber frames = some (g, 0)) ∧
    (g.m_enabled = true →
      Booked g (operatorNew g 0 size frames).1 (plainRecord 0 size frames) ∧
      Booked g (operatorNewArray g 0 size frames).1 (plainRecord 0 size frames) ∧
      (fileName.length < MaxStringBuffer →
        (∃ g1, operatorNewSite g 0 size blockUse fileName lineNumber frames = some (g1, 0) ∧
          Booked g g1 (customRecord 0 size blockUse fileName lineNumber frames)) ∧
        (∃ g1, operatorNewArraySite g 0 size blockUse fileName lineNumber frames = some (g1, 0) ∧
          Booked g g1 (customRecord 0 size blockUse fileName lineNumber frames)))) := by
  refine ⟨rfl, rfl, ?_, ?_⟩
  · intro hen
    simp [operatorNew, operatorNewArray, operatorNewSite, operatorNewArraySite,
      addAllocationInfo, addCustomAllocationInfo, hen]
  · intro hen
    refine ⟨?_, ?_, ?_⟩
    · simp only [operatorNew]
      rw [addAllocationInfo_enabled g hen]
      exact booked_add g 0 size _ rfl rfl
    · simp only [operatorNewArray]
      rw [addAllocationInfo_enabled g hen]
      exact booked_add g 0 size _ rfl rfl
    · intro hfit
      have hs := addCustomAllocationInfo_enabled g hen 0 size blockUse fileName lineNumber frames
        hfit
      refine ⟨⟨_, by simp only [operatorNewSite, hs], booked_add g 0 size _ rfl rfl⟩,
        ⟨_, by simp only [operatorNewArraySite, hs], booked_add g 0 size _ rfl rfl⟩⟩

/-- A failed request for 16 bytes on the initial registry. -/
theorem null_block_is_booked_witness :
    init.m_enabled = true ∧ ("x.c").length < MaxStringBuffer ∧
      Booked init (operatorNew init 0 16 []).1 (plainRecord 0 16 []) ∧
      ∃ g1, operatorNewSite init 0 16 1 "x.c" 42 [] = some (g1, 0) ∧
        Booked init g1 (customRecord 0 16 1 "x.c" 42 []) :=
  ⟨rfl, by decide,
    ((null_block_is_booked init 16 1 "x.c" 42 []).2.2.2 rfl).1,
    (((null_block_is_booked init 16 1 "x.c" 42 []).2.2.2 rfl).2.2 (by decide)).1⟩

/-- C5 as stated fails: a failed request for 16 bytes on the initial
registry hands null to the caller and leaves an entry under the key 0 in
the live table, an entry in the history log, and 16 in both counters. -/
theorem null_block_changes_registry :
    (operatorNew init 0 16 []).2 = 0 ∧
      (operatorNew init 0 16 []).1.m_leakinfo.keys = [0] ∧
      (operatorNew init 0 16 []).1.allocDataList.length = 1 ∧
      (operatorNew init 0 16 []).1.allAllocSize = 16 ∧
      (operatorNew init 0 16 []).1.allMemoryleakSize = 16 ∧
      init.m_leakinfo.keys = [] ∧ init.allocDataList.length = 0 ∧
      init.allAllocSize = 0 ∧ init.allMemoryleakSize = 0 := by
  decide

/-! ## The gate -/

/-- C6 (amended). While the gate `m_enabled` is false, `addAllocationInfo`
and `addCustomAllocationInfo` leave the registry (live table, history log,
both counters) as it is, for every argument. `eraseAllocationInfo` does not
look at the gate: for an address that is a key of the live table it removes
the entry (the other entries stay) and subtracts its size from
`allMemoryleakSize`, and leaves the history log, `allAllocSize` and the gate
as they are. -/
theorem gate_closed (g : MemoryLeakBusterCustom) (h : g.m_enabled = false) :
    (∀ (p size : Nat) (frames : List Nat), addAllocationInfo g p size frames = g) ∧
    (∀ (p size : Nat) (blockUsage : Int) (filename : String) (line : Int) (frames : List Nat),
      addCustomAllocationInfo g p size blockUsage filename line frames = some g) ∧
    (∀ (p : Nat) (info : AllocInfo), g.m_leakinfo.find p = some info →
      ∃ g1, eraseAllocationInfo g p = some g1 ∧
        g1.m_leakinfo = g.m_leakinfo.erase p ∧
        g1.allMemoryleakSize = (g.allMemoryleakSize + U64 - info.size % U64) % U64 ∧
        g1.allocDataList = g.allocDataList ∧
        g1.allAllocSize = g.allAllocSize ∧
        g1.m_enabled = false ∧
        (g.m_leakinfo.Ordered →
          g1.m_leakinfo.find p = none ∧
          ∀ a, a ≠ p → g1.m_leakinfo.find a = g.m_leakinfo.find a)) := by
  refine ⟨?_, ?_, ?_⟩
  · intro p size frames
    simp [addAllocationInfo, h]
  · intro p size blockUsage filename line frames
    simp [addCustomAllocationInfo, h]
  · intro p info hf
    refine ⟨{ g with
        allMemoryleakSize := (g.allMemoryleakSize + U64 - info.size % U64) % U64
        m_leakinfo := g.m_leakinfo.erase p }, ?_, rfl, rfl, rfl, rfl, h, ?_⟩
    · simp only [eraseAllocationInfo, hf]
    · intro ho
      refine ⟨?_, ?_⟩
      · show (g.m_leakinfo.erase p).find p = none
        rw [DataTable.find_erase _ p p ho, if_pos rfl]
      · intro a ha
        show (g.m_leakinfo.erase p).find a = g.m_leakinfo.find a
        rw [DataTable.find_erase _ p a ho, if_neg (fun hpa => ha hpa.symm)]

/-- The registry after one block of 16 bytes was recorded and the gate was
closed: recordings change nothing, the release of the block removes its
entry. -/
theorem gate_closed_witness :
    (enableLeakCheck (addAllocationInfo init 4096 16 []) false).m_enabled = false ∧
      addAllocationInfo (enableLeakCheck (addAllocationInfo init 4096 16 []) false) 8192 32 [] =
        enableLeakCheck (addAllocationInfo init 4096 16 []) false ∧
      addCustomAllocationInfo (enableLeakCheck (addAllocationInfo init 4096 16 []) false)
          8192 32 1 longName 7 [] =
        some (enableLeakCheck (addAllocationInfo init 4096 16 []) false) ∧
      ∃ g1, eraseAllocationInfo (enableLeakCheck (addAllocationInfo init 4096 16 []) false) 4096
          = some g1 ∧
        g1.m_leakinfo =
          (enableLeakCheck (addAllocationInfo init 4096 16 []) false).m_leakinfo.erase 4096 ∧
        g1.allMemoryleakSize =
          ((enableLeakCheck (addAllocationInfo init 4096 16 []) false).allMemoryleakSize + U64 -
            (plainRecord 4096 16 []).size % U64) % U64 ∧
        g1.allocDataList =
          (enableLeakCheck (addAllocationInfo init 4096 16 []) false).allocDataList ∧
        g1.allAllocSize =
          (enableLeakCheck (addAllocationInfo init 4096 16 []) false).allAllocSize ∧
        g1.m_enabled = false ∧
        ((enableLeakCheck (addAllocationInfo init 4096 16 []) false).m_leakinfo.Ordered →
          g1.m_leakinfo.find 4096 = none ∧
          ∀ a, a ≠ 4096 → g1.m_leakinfo.find a =
            (enableLeakCheck (addAllocationInfo init 4096 16 []) false).m_leakinfo.find a) :=
  ⟨rfl,
    (gate_closed (enableLeakCheck (addAllocationInfo init 4096 16 []) false) rfl).1 8192 32 [],
    (gate_closed (enableLeakCheck (addAllocationInfo init 4096 16 []) false) rfl).2.1
      8192 32 1 longName 7 [],
    (gate_closed (enableLeakCheck (addAllocationInfo init 4096 16 []) false) rfl).2.2
      4096 (plainRecord 4096 16 []) (by decide)⟩

/-- C6 as stated fails: with one block of 16 bytes recorded and the gate
closed, releasing that block empties the live table and takes
`allMemoryleakSize` from 16 to 0. -/
theorem release_ignores_gate :
    (enableLeakCheck (addAllocationInfo init 4096 16 []) false).m_enabled = false ∧
      (enableLeakCheck (addAllocationInfo init 4096 16 []) false).m_leakinfo.keys = [4096] ∧
      (enableLeakCheck (addAllocationInfo init 4096 16 []) false).allMemoryleakSize = 16 ∧
      ∃ g1, eraseAllocationInfo (enableLeakCheck (addAllocationInfo init 4096 16 []) false) 4096
          = some g1 ∧
        g1.m_leakinfo = [] ∧ g1.allMemoryleakSize = 0 := by
  refine ⟨rfl, by decide, by decide, _, rfl, ?_, ?_⟩ <;> decide

/-! ## Annotated recordings -/

/-- C7 (amended). For every address, size, category, source line and every
source-file string shorter than `MaxStringBuffer` characters, after
`addCustomAllocationInfo` on a registry whose gate is open the record stored
in the live table under that address is also the record at the end of the
history log; it has `customInfo` set and its `blockUsage`, `filename` and
`lineNumber` are the arguments. -/
theorem custom_record_keeps_site (g : MemoryLeakBusterCustom) (p size : Nat) (blockUsage : Int)
    (filename : String) (line : Int) (frames : List Nat) (hen : g.m_enabled = true)
    (hfit : filename.length < MaxStringBuffer) :
    ∃ g1 r, addCustomAllocationInfo g p size blockUsage filename line frames = some g1 ∧
      g1.m_leakinfo.find p = some r ∧
      g1.allocDataList = g.allocDataList ++ [r] ∧
      r.customInfo = true ∧ r.blockUsage = blockUsage ∧ r.filename = filename ∧
      r.lineNumber = line := by
  refine ⟨_, customRecord p size blockUsage filename line frames,
    addCustomAllocationInfo_enabled g hen p size blockUsage filename line frames hfit,
    ?_, rfl, rfl, rfl, rfl, rfl⟩
  simp [DataTable.find_assign]

/-- Category 1, file `x.c`, line 42, 8 bytes, on the initial registry. -/
theorem custom_record_keeps_site_witness :
    ∃ g1 r, addCustomAllocationInfo init 4096 8 1 "x.c" 42 [] = some g1 ∧
      g1.m_leakinfo.find 4096 = some r ∧
      g1.allocDataList = init.allocDataList ++ [r] ∧
      r.customInfo = true ∧ r.blockUsage = 1 ∧ r.filename = "x.c" ∧ r.lineNumber = 42 :=
  custom_record_keeps_site init 4096 8 1 "x.c" 42 [] rfl (by decide)

/-- C7 as stated fails: with a source-file string of 600 characters the
call writes past the end of the `filename` array of the record and has no
defined result. -/
theorem custom_record_long_name :
    init.m_enabled = true ∧ longName.length = 600 ∧
      addCustomAllocationInfo init 4096 8 1 longName 42 [] = none :=
  ⟨rfl, longName_length, addCustomAllocationInfo_longName init rfl 4096 8 1 42 []⟩

/-! ## The symbol resolver -/

theorem hexFixed_length (upper : Bool) (k n : Nat) : (hexFixed upper k n).length = k := by
  induction k generalizing n with
  | zero => rfl
  | succ k ih => simp [hexFixed, ih]

theorem hexShort_length (upper : Bool) (k n : Nat) : (hexShort upper k n).length ≤ k := by
  induction k generalizing n with
  | zero => simp [hexShort]
  | succ k ih =>
    unfold hexShort
    split
    · simp
    · have := ih (n / 16)
      simp only [List.length_append, List.length_singleton]
      omega

theorem hexShort_length_pos (upper : Bool) (k n : Nat) :
    0 < (hexShort upper (k + 1) n).length := by
  unfold hexShort
  split <;> simp

theorem decShort_length (k n : Nat) : (decShort k n).length ≤ k := by
  induction k generalizing n with
  | zero => simp [decShort]
  | succ k ih =>
    unfold decShort
    split
    · simp
    · have := ih (n / 10)
      simp only [List.length_append, List.length_singleton]
      omega

theorem hexCharValue_hexDigit (upper : Bool) :
    ∀ d, d < 16 → hexCharValue (hexDigit upper d) = d := by
  cases upper <;> decide

theorem isUpperHex_hexDigit : ∀ d, d < 16 → isUpperHex (hexDigit true d) = true := by
  decide

theorem isLowerHex_hexDigit : ∀ d, d < 16 → isLowerHex (hexDigit false d) = true := by
  decide

theorem decDigit_value : ∀ d, d < 10 → (Char.ofNat (48 + d)).toNat - 48 = d := by
  decide

theorem decDigit_isDigit : ∀ d, d < 10 → (Char.ofNat (48 + d)).isDigit = true := by
  decide

theorem hexValue_snoc (l : List Char) (c : Char) :
    hexValue (l ++ [c]) = hexValue l * 16 + hexCharValue c := by
  simp [hexValue, List.foldl_append]

theorem decValue_snoc (l : List Char) (c : Char) :
    decValue (l ++ [c]) = decValue l * 10 + (c.toNat - 48) := by
  simp [decValue, List.foldl_append]

theorem hexValue_hexFixed (upper : Bool) (k n : Nat) :
    hexValue (hexFixed upper k n) = n % 16 ^ k := by
  induction k generalizing n with
  | zero => simp [hexFixed, hexValue, Nat.mod_one]
  | succ k ih =>
    rw [hexFixed, hexValue_snoc, ih, hexCharValue_hexDigit upper _ (Nat.mod_lt _ (by decide)),
      pow_succ', Nat.mod_mul]
    omega

theorem hexValue_hexShort (upper : Bool) (k n : Nat) (h : n < 16 ^ k) :
    hexValue (hexShort upper k n) = n := by
  induction k generalizing n with
  | zero =>
    have : n = 0 := by simpa using h
    subst this; rfl
  | succ k ih =>
    unfold hexShort
    split
    · rename_i h16
      simp [hexValue, hexCharValue_hexDigit upper n h16]
    · have hdiv : n / 16 < 16 ^ k := by
        rw [Nat.div_lt_iff_lt_mul (by decide)]
        rw [pow_succ] at h; exact h
      rw [hexValue_snoc, ih _ hdiv, hexCharValue_hexDigit upper _ (Nat.mod_lt _ (by decide))]
      omega

theorem decValue_decShort (k n : Nat) (h : n < 10 ^ k) : decValue (decShort k n) = n := by
  induction k generalizing n with
  | zero =>
    have : n = 0 := by simpa using h
    subst this; rfl
  | succ k ih =>
    unfold decShort
    split
    · rename_i h10
      simp [decValue, decDigit_value n h10]
    · have hdiv : n / 10 < 10 ^ k := by
        rw [Nat.div_lt_iff_lt_mul (by decide)]
        rw [pow_succ] at h; exact h
      rw [decValue_snoc, ih _ hdiv, decDigit_value _ (Nat.mod_lt _ (by decide))]
      omega

theorem all_isUpperHex_hexFixed (k n : Nat) : (hexFixed true k n).all isUpperHex = true := by
  induction k generalizing n with
  | zero => rfl
  | succ k ih =>
    rw [hexFixed, List.all_append, ih]
    simp [isUpperHex_hexDigit _ (Nat.mod_lt n (by decide : 0 < 16))]

theorem all_isLowerHex_hexShort (k n : Nat) : (hexShort false k n).all isLowerHex = true := by
  induction k generalizing n with
  | zero => rfl
  | succ k ih =>
    unfold hexShort
    split
    · rename_i h16
      simp [isLowerHex_hexDigit n h16]
    · rw [List.all_append, ih]
      simp [isLowerHex_hexDigit _ (Nat.mod_lt n (by decide : 0 < 16))]

theorem all_isDigit_decShort (k n : Nat) : (decShort k n).all Char.isDigit = true := by
  induction k generalizing n with
  | zero => rfl
  | succ k ih =>
    unfold decShort
    split
    · rename_i h10
      simp [decDigit_isDigit n h10]
    · rw [List.all_append, ih]
      simp [decDigit_isDigit _ (Nat.mod_lt n (by decide : 0 < 10))]

theorem fmtPointer_length (a : Nat) : (fmtPointer a).length = 16 := by
  unfold fmtPointer
  rw [String.length_mk]
  exact hexFixed_length true 16 _

theorem fmtHex_length (n : Nat) : (fmtHex n).length ≤ 8 := by
  unfold fmtHex
  rw [String.length_mk]
  exact hexShort_length false 8 _

theorem fmtInt_length (n : Nat) : (fmtInt n).length ≤ 11 := by
  unfold fmtInt
  split
  · have := decShort_length 10 (n % 2 ^ 32)
    rw [String.length_mk]
    omega
  · have := decShort_length 10 (2 ^ 32 - n % 2 ^ 32)
    rw [String.length_mk, List.length_cons]
    omega

/-- The conversion `%p` prints 16 upper-case hexadecimal digits that denote
the pointer. -/
theorem fmtPointer_reads (a : Nat) :
    (fmtPointer a).length = 16 ∧ (fmtPointer a).data.all isUpperHex = true ∧
      hexValue (fmtPointer a).data = a % 2 ^ 64 := by
  refine ⟨fmtPointer_length a, ?_, ?_⟩
  · unfold fmtPointer
    exact all_isUpperHex_hexFixed 16 _
  · unfold fmtPointer
    show hexValue (hexFixed true 16 (a % 2 ^ 64)) = a % 2 ^ 64
    rw [hexValue_hexFixed]
    have h : (16 : Nat) ^ 16 = 2 ^ 64 := by norm_num
    rw [h, Nat.mod_mod]

/-- The conversion `%x` prints between one and eight lower-case hexadecimal
digits that denote the low 32 bits of the argument. -/
theorem fmtHex_reads (n : Nat) :
    0 < (fmtHex n).length ∧ (fmtHex n).length ≤ 8 ∧
      (fmtHex n).data.all isLowerHex = true ∧ hexValue (fmtHex n).data = n % 2 ^ 32 := by
  refine ⟨?_, fmtHex_length n, ?_, ?_⟩
  · unfold fmtHex
    rw [String.length_mk]
    exact hexShort_length_pos false 7 _
  · unfold fmtHex
    exact all_isLowerHex_hexShort 8 _
  · unfold fmtHex
    show hexValue (hexShort false 8 (n % 2 ^ 32)) = n % 2 ^ 32
    apply hexValue_hexShort
    have h : (16 : Nat) ^ 8 = 2 ^ 32 := by norm_num
    rw [h]
    exact Nat.mod_lt _ (by norm_num)

/-- The conversion `%d` of a `DWORD` below `2 ^ 31` prints its decimal
digits. -/
theorem fmtInt_reads_nonneg (n : Nat) (h : n % 2 ^ 32 < 2 ^ 31) :
    (fmtInt n).data.all Char.isDigit = true ∧ decValue (fmtInt n).data = n % 2 ^ 32 := by
  unfold fmtInt
  rw [if_pos h]
  refine ⟨all_isDigit_decShort 10 _, ?_⟩
  show decValue (decShort 10 (n % 2 ^ 32)) = n % 2 ^ 32
  apply decValue_decShort
  generalize n % 2 ^ 32 = v at h
  norm_num at h ⊢
  omega

/-- The conversion `%d` of a `DWORD` from `2 ^ 31` on prints a minus sign
and the decimal digits of its distance to `2 ^ 32`. -/
theorem fmtInt_reads_neg (n : Nat) (h : 2 ^ 31 ≤ n % 2 ^ 32) :
    ∃ d : String, fmtInt n = "-" ++ d ∧ d.data.all Char.isDigit = true ∧
      decValue d.data = 2 ^ 32 - n % 2 ^ 32 := by
  refine ⟨String.mk (decShort 10 (2 ^ 32 - n % 2 ^ 32)), ?_, all_isDigit_decShort 10 _, ?_⟩
  · unfold fmtInt
    rw [if_neg (by omega)]
    rfl
  · show decValue (decShort 10 (2 ^ 32 - n % 2 ^ 32)) = 2 ^ 32 - n % 2 ^ 32
    apply decValue_decShort
    generalize n % 2 ^ 32 = v at h
    norm_num at h ⊢
    omega

/-- The difference of two `size_t` values wraps around at `2 ^ 64`. -/
theorem sizeSub_reads (a b : Nat) :
    sizeSub a b < 2 ^ 64 ∧ (sizeSub a b + b) % 2 ^ 64 = a % 2 ^ 64 := by
  unfold sizeSub
  constructor
  · exact Nat.mod_lt _ (by decide)
  · omega

theorem istsprintf_fits (n : Nat) (text : String) (h : text.length < n) :
    istsprintf n text = some text := by
  simp [istsprintf, h]

theorem moduleText_eq (m : IMAGEHLP_MODULE) (address : Nat) :
    m.ModuleName ++ " + 0x" ++ fmtHex (sizeSub address m.BaseOfImage) ++
        " [0x" ++ fmtPointer address ++ "]\n" = moduleText m address := by
  have hsp : (" [0x" : String) = " " ++ "[0x" := by decide
  simp only [moduleText, addressText]
  generalize fmtPointer address = P
  generalize fmtHex (sizeSub address m.BaseOfImage) = X
  rw [hsp]
  simp only [String.append_assoc]

theorem symbolText_eq (m : IMAGEHLP_MODULE) (s : IMAGEHLP_SYMBOL) (address : Nat) :
    m.ModuleName ++ "!" ++ s.Name ++ " + 0x" ++ fmtHex (sizeSub address s.Address) ++
        " [0x" ++ fmtPointer address ++ "]\n" = symbolText m s address := by
  have hsp : (" [0x" : String) = " " ++ "[0x" := by decide
  simp only [symbolText, addressText]
  generalize fmtPointer address = P
  generalize fmtHex (sizeSub address s.Address) = X
  rw [hsp]
  simp only [String.append_assoc]

theorem lineText_eq (m : IMAGEHLP_MODULE) (s : IMAGEHLP_SYMBOL) (l : IMAGEHLP_LINE)
    (address : Nat) :
    l.FileName ++ "(" ++ fmtInt l.LineNumber ++ "): " ++ m.ModuleName ++ "!" ++ s.Name ++
        " + 0x" ++ fmtHex (sizeSub address s.Address) ++
        " [0x" ++ fmtPointer address ++ "]\n" = lineText m s l address := by
  have hsp : (" [0x" : String) = " " ++ "[0x" := by decide
  simp only [lineText, symbolText, addressText]
  generalize fmtPointer address = P
  generalize fmtHex (sizeSub address s.Address) = X
  generalize fmtInt l.LineNumber = D
  rw [hsp]
  simp only [String.append_assoc]

theorem addressText_length (address : Nat) : (addressText address).length = 21 := by
  have hp := fmtPointer_length address
  unfold addressText
  generalize fmtPointer address = P at hp
  have h1 : ("[0x" : String).length = 3 := by decide
  have h2 : ("]\n" : String).length = 2 := by decide
  simp only [String.length_append, hp, h1, h2]

theorem moduleText_length (m : IMAGEHLP_MODULE) (address : Nat) :
    21 ≤ (moduleText m address).length ∧ (moduleText m address).length ≤ 66 := by
  have ha := addressText_length address
  have hx := fmtHex_length (sizeSub address m.BaseOfImage)
  have hm := m.moduleNameFits
  unfold moduleText
  generalize addressText address = A at ha
  generalize fmtHex (sizeSub address m.BaseOfImage) = X at hx
  have h1 : (" + 0x" : String).length = 5 := by decide
  have h2 : (" " : String).length = 1 := by decide
  simp only [String.length_append, ha, h1, h2]
  omega

theorem symbolText_length (m : IMAGEHLP_MODULE) (s : IMAGEHLP_SYMBOL) (address : Nat) :
    21 ≤ (symbolText m s address).length ∧ (symbolText m s address).length ≤ 327 := by
  have ha := addressText_length address
  have hx := fmtHex_length (sizeSub address s.Address)
  have hm := m.moduleNameFits
  have hs : s.Name.length ≤ 260 := s.nameFits
  unfold symbolText
  generalize addressText address = A at ha
  generalize fmtHex (sizeSub address s.Address) = X at hx
  have h0 : ("!" : String).length = 1 := by decide
  have h1 : (" + 0x" : String).length = 5 := by decide
  have h2 : (" " : String).length = 1 := by decide
  simp only [String.length_append, ha, h0, h1, h2]
  omega

theorem lineText_length (m : IMAGEHLP_MODULE) (s : IMAGEHLP_SYMBOL) (l : IMAGEHLP_LINE)
    (address : Nat) :
    l.FileName.length + 21 ≤ (lineText m s l address).length ∧
      (lineText m s l address).length ≤ l.FileName.length + 342 := by
  have hb := symbolText_length m s address
  have hd := fmtInt_length l.LineNumber
  unfold lineText
  generalize symbolText m s address = B at hb
  generalize fmtInt l.LineNumber = D at hd
  have h1 : ("(" : String).length = 1 := by decide
  have h2 : ("): " : String).length = 3 := by decide
  simp only [String.length_append, h1, h2]
  omega

theorem longPath_length : longPath.length = 1024 := by
  show (List.replicate 1024 'a').length = 1024
  exact List.length_replicate 1024 'a'

/-- C9 (amended). For every address and every outcome of the three lookups
for which the formatted text is shorter than the 1024 chars of the
resolver's array (it always is unless module, symbol and line all resolve),
`AddressToSymbolName` returns a text, the text is not empty, and it is:
file(line) followed by module!function + offset when module, symbol and line
resolve; module!function + offset when module and symbol resolve and the
line does not; module + offset when the module resolves and the symbol does
not; the raw address alone when the module does not resolve. In these texts
the raw address is printed as 16 upper-case hexadecimal digits that denote
the address, an offset as at most 8 lower-case hexadecimal digits that denote
the low 32 bits of the `size_t` difference between the address and the
start of the function (or of the module), and the line as the decimal digits
of the `DWORD` read as an `int`. -/
theorem AddressToSymbolName_tiers (address : Nat) (imageModule : Option IMAGEHLP_MODULE)
    (imageSymbol : Option IMAGEHLP_SYMBOL) (line : Option IMAGEHLP_LINE)
    (hfit : ∀ m s l, imageModule = some m → imageSymbol = some s → line = some l →
      (lineText m s l address).length < 1024) :
    (∃ text, AddressToSymbolName address imageModule imageSymbol line = some text ∧
      0 < text.length ∧
      (∀ m s l, imageModule = some m → imageSymbol = some s → line = some l →
        text = l.FileName ++ "(" ++ fmtInt l.LineNumber ++ "): " ++ m.ModuleName ++ "!" ++
          s.Name ++ " + 0x" ++ fmtHex (sizeSub address s.Address) ++
          " [0x" ++ fmtPointer address ++ "]\n") ∧
      (∀ m s, imageModule = some m → imageSymbol = some s → line = none →
        text = m.ModuleName ++ "!" ++ s.Name ++ " + 0x" ++
          fmtHex (sizeSub address s.Address) ++ " [0x" ++ fmtPointer address ++ "]\n") ∧
      (∀ m, imageModule = some m → imageSymbol = none →
        text = m.ModuleName ++ " + 0x" ++ fmtHex (sizeSub address m.BaseOfImage) ++
          " [0x" ++ fmtPointer address ++ "]\n") ∧
      (imageModule = none → text = "[0x" ++ fmtPointer address ++ "]\n")) ∧
    ((fmtPointer address).length = 16 ∧ (fmtPointer address).data.all isUpperHex = true ∧
      hexValue (fmtPointer address).data = address % 2 ^ 64) ∧
    (∀ n, 0 < (fmtHex n).length ∧ (fmtHex n).length ≤ 8 ∧
      (fmtHex n).data.all isLowerHex = true ∧ hexValue (fmtHex n).data = n % 2 ^ 32) ∧
    (∀ a b, sizeSub a b < 2 ^ 64 ∧ (sizeSub a b + b) % 2 ^ 64 = a % 2 ^ 64) ∧
    (∀ n, n % 2 ^ 32 < 2 ^ 31 →
      (fmtInt n).data.all Char.isDigit = true ∧ decValue (fmtInt n).data = n % 2 ^ 32) ∧
    (∀ n, 2 ^ 31 ≤ n % 2 ^ 32 →
      ∃ d : String, fmtInt n = "-" ++ d ∧ d.data.all Char.isDigit = true ∧
        decValue d.data = 2 ^ 32 - n % 2 ^ 32) := by
  refine ⟨?_, fmtPointer_reads address, fmtHex_reads, sizeSub_reads, fmtInt_reads_nonneg,
    fmtInt_reads_neg⟩
  cases imageModule with
  | none =>
    have hlen := addressText_length address
    have hcode : AddressToSymbolName address none imageSymbol line =
        istsprintf 1024 (addressText address) := rfl
    refine ⟨addressText address, ?_, by omega, ?_, ?_, ?_, fun _ => rfl⟩
    · rw [hcode]; exact istsprintf_fits _ _ (by omega)
    · intro m s l hm; cases hm
    · intro m s hm; cases hm
    · intro m hm; cases hm
  | some m =>
    cases imageSymbol with
    | none =>
      have hcode : AddressToSymbolName address (some m) none line =
          istsprintf 1024 (m.ModuleName ++ " + 0x" ++ fmtHex (sizeSub address m.BaseOfImage) ++
            " [0x" ++ fmtPointer address ++ "]\n") := rfl
      have hlen := moduleText_length m address
      rw [← moduleText_eq] at hlen
      refine ⟨m.ModuleName ++ " + 0x" ++ fmtHex (sizeSub address m.BaseOfImage) ++
        " [0x" ++ fmtPointer address ++ "]\n", ?_, by omega, ?_, ?_, ?_, ?_⟩
      · rw [hcode]; exact istsprintf_fits _ _ (by omega)
      · intro m1 s l _ hs; cases hs
      · intro m1 s _ hs; cases hs
      · intro m1 hm _; cases hm; rfl
      · intro hm; cases hm
    | some s =>
      cases line with
      | none =>
        have hcode : AddressToSymbolName address (some m) (some s) none =
            istsprintf 1024 (m.ModuleName ++ "!" ++ s.Name ++ " + 0x" ++
              fmtHex (sizeSub address s.Address) ++ " [0x" ++ fmtPointer address ++ "]\n") := rfl
        have hlen := symbolText_length m s address
        rw [← symbolText_eq] at hlen
        refine ⟨m.ModuleName ++ "!" ++ s.Name ++ " + 0x" ++
          fmtHex (sizeSub address s.Address) ++ " [0x" ++ fmtPointer address ++ "]\n",
          ?_, by omega, ?_, ?_, ?_, ?_⟩
        · rw [hcode]; exact istsprintf_fits _ _ (by omega)
        · intro m1 s1 l _ _ hl; cases hl
        · intro m1 s1 hm hs _; cases hm; cases hs; rfl
        · intro m1 _ hs; cases hs
        · intro hm; cases hm
      | some l =>
        have hcode : AddressToSymbolName address (some m) (some s) (some l) =
            istsprintf 1024 (l.FileName ++ "(" ++ fmtInt l.LineNumber ++ "): " ++
              m.ModuleName ++ "!" ++ s.Name ++ " + 0x" ++
              fmtHex (sizeSub address s.Address) ++ " [0x" ++ fmtPointer address ++ "]\n") := rfl
        have hlen := lineText_length m s l address
        have hlt := hfit m s l rfl rfl rfl
        rw [← lineText_eq] at hlen hlt
        refine ⟨l.FileName ++ "(" ++ fmtInt l.LineNumber ++ "): " ++
          m.ModuleName ++ "!" ++ s.Name ++ " + 0x" ++
          fmtHex (sizeSub address s.Address) ++ " [0x" ++ fmtPointer address ++ "]\n",
          ?_, by omega, ?_, ?_, ?_, ?_⟩
        · rw [hcode]; exact istsprintf_fits _ _ hlt
        · intro m1 s1 l1 hm hs hl; cases hm; cases hs; cases hl; rfl
        · intro m1 s1 _ _ hl; cases hl
        · intro m1 _ hs; cases hs
        · intro hm; cases hm

/-- The four tiers for a return address inside `main` of `app`. -/
theorem AddressToSymbolName_tiers_witness :
    AddressToSymbolName 0x7FF6A1B2C3D4 (some exampleModule) (some exampleSymbol)
        (some exampleLine) =
      some "main.cpp(42): app!main + 0x1a2b [0x00007FF6A1B2C3D4]\n" ∧
    AddressToSymbolName 0x7FF6A1B2C3D4 (some exampleModule) (some exampleSymbol) none =
      some "app!main + 0x1a2b [0x00007FF6A1B2C3D4]\n" ∧
    AddressToSymbolName 0x7FF6A1B2C3D4 (some exampleModule) none (some exampleLine) =
      some "app + 0xc3d4 [0x00007FF6A1B2C3D4]\n" ∧
    AddressToSymbolName 0x7FF6A1B2C3D4 none (some exampleSymbol) (some exampleLine) =
      some "[0x00007FF6A1B2C3D4]\n" ∧
    fmtInt (2 ^ 32 - 1) = "-1" ∧
    (lineText exampleModule exampleSymbol exampleLine 0x7FF6A1B2C3D4).length < 1024 ∧
    ∃ text, AddressToSymbolName 0x7FF6A1B2C3D4 (some exampleModule) (some exampleSymbol)
        (some exampleLine) = some text ∧
      0 < text.length ∧
      text = exampleLine.FileName ++ "(" ++ fmtInt exampleLine.LineNumber ++ "): " ++
        exampleModule.ModuleName ++ "!" ++ exampleSymbol.Name ++ " + 0x" ++
        fmtHex (sizeSub 0x7FF6A1B2C3D4 exampleSymbol.Address) ++
        " [0x" ++ fmtPointer 0x7FF6A1B2C3D4 ++ "]\n" :=
  ⟨by decide, by decide, by decide, by decide, by decide, by decide,
    match (AddressToSymbolName_tiers 0x7FF6A1B2C3D4 (some exampleModule) (some exampleSymbol)
      (some exampleLine) (by
        intro m s l hm hs hl
        cases hm; cases hs; cases hl
        decide)).1 with
    | ⟨text, h1, h2, h3, _⟩ => ⟨text, h1, h2, h3 exampleModule exampleSymbol exampleLine rfl rfl rfl⟩⟩

/-- C9 as stated fails: with module, symbol and line resolved and a file
name of 1024 characters the formatted text does not fit the array of 1024
chars, no terminating NUL is stored, and the call has no defined result. -/
theorem AddressToSymbolName_long_path :
    longPath.length = 1024 ∧
      AddressToSymbolName 0x7FF6A1B2C3D4 (some exampleModule) (some exampleSymbol)
        (some { FileName := longPath, LineNumber := 42 }) = none := by
  refine ⟨longPath_length, ?_⟩
  have hcode : AddressToSymbolName 0x7FF6A1B2C3D4 (some exampleModule) (some exampleSymbol)
      (some { FileName := longPath, LineNumber := 42 }) =
      istsprintf 1024 (longPath ++ "(" ++ fmtInt 42 ++ "): " ++
        exampleModule.ModuleName ++ "!" ++ exampleSymbol.Name ++ " + 0x" ++
        fmtHex (sizeSub 0x7FF6A1B2C3D4 exampleSymbol.Address) ++
        " [0x" ++ fmtPointer 0x7FF6A1B2C3D4 ++ "]\n") := rfl
  have hlen := (lineText_length exampleModule exampleSymbol
    { FileName := longPath, LineNumber := 42 } 0x7FF6A1B2C3D4).1
  rw [← lineText_eq] at hlen
  rw [hcode]
  unfold istsprintf
  rw [if_neg]
  have h := longPath_length
  simp only [h] at hlen
  omega

/-! ## Several threads -/

/-- Run by one thread alone, the steps of `addAllocationInfo` are the method
of the registry. -/
theorem runAlone_addAllocationInfoCode (tid : Nat) (g : MemoryLeakBusterCustom) (p size : Nat)
    (frames : List Nat) (reg : Nat) :
    runAlone tid (addAllocationInfoCode p size frames) g none reg =
      some (addAllocationInfo g p size frames, none) := by
  cases hen : g.m_enabled
  · simp [runAlone, addAllocationInfoCode, stepInstr, addAllocationInfo, hen]
  · simp [runAlone, addAllocationInfoCode, stepInstr, addAllocationInfo, hen]

/-- Run by one thread alone, the steps of `addCustomAllocationInfo` are the
method of the registry. -/
theorem runAlone_addCustomAllocationInfoCode (tid : Nat) (g : MemoryLeakBusterCustom)
    (p size : Nat) (blockUsage : Int) (filename : String) (line : Int) (frames : List Nat)
    (reg : Nat) :
    (runAlone tid (addCustomAllocationInfoCode p size blockUsage filename line frames)
        g none reg).map Prod.fst =
      addCustomAllocationInfo g p size blockUsage filename line frames := by
  cases hen : g.m_enabled
  · simp [runAlone, addCustomAllocationInfoCode, stepInstr, addCustomAllocationInfo, hen]
  · by_cases hfit : MaxStringBuffer ≤ filename.length
    · simp [runAlone, addCustomAllocationInfoCode, stepInstr, addCustomAllocationInfo, hen, hfit]
    · simp [runAlone, addCustomAllocationInfoCode, stepInstr, addCustomAllocationInfo, hen, hfit]

/-- Run by one thread alone, the steps of `eraseAllocationInfo` are the
method of the registry. -/
theorem runAlone_eraseAllocationInfoCode (tid : Nat) (g : MemoryLeakBusterCustom) (p : Nat)
    (reg : Nat) :
    (runAlone tid (eraseAllocationInfoCode p) g none reg).map Prod.fst =
      eraseAllocationInfo g p := by
  cases he : eraseAllocationInfo g p with
  | none => simp [runAlone, eraseAllocationInfoCode, stepInstr, he]
  | some g1 => simp [runAlone, eraseAllocationInfoCode, stepInstr, he]

/-- C10. In the code only `eraseAllocationInfo` keeps all its accesses to the
registry between taking and giving back the mutex. `addAllocationInfo` and
`addCustomAllocationInfo` give the mutex back after the assignment to the
live table and update both counters and the history log without it;
`printLeakInfo` reads the counters and the history log before it takes the
mutex. With two threads in `addAllocationInfo`, for 16 and for 32 bytes, a
schedule exists after which both calls have returned and `allAllocSize` is
16, whereas the two calls one after the other give 48. -/
theorem counters_outside_mutex :
    (∀ p, lockedAccess false (eraseAllocationInfoCode p) = true) ∧
      (∀ p size frames, lockedAccess false (addAllocationInfoCode p size frames) = false) ∧
      (∀ p size blockUsage filename line frames,
        lockedAccess false
          (addCustomAllocationInfoCode p size blockUsage filename line frames) = false) ∧
      lockedAccess false printLeakInfoCode = false ∧
      (∃ m, execAll twoRecorders lostUpdateSchedule = some m ∧
        m.threads.all (fun t => t.code.isEmpty) = true ∧ m.owner = none ∧
        m.g.allAllocSize = 16 ∧ m.g.allMemoryleakSize = 48 ∧
        m.g.allocDataList.length = 2 ∧ m.g.m_leakinfo.keys = [4096, 8192]) ∧
      (∃ g, run init [Op.record 4096 16 [], Op.record 8192 32 []] = some g ∧
        g.allAllocSize = 48) := by
  refine ⟨fun p => rfl, fun p size frames => rfl, fun _ _ _ _ _ _ => rfl, rfl, ?_, ?_⟩
  · refine ⟨_, rfl, ?_, ?_, ?_, ?_, ?_, ?_⟩ <;> decide
  · exact ⟨_, rfl, by decide⟩

end MLBC
